import Mathlib

/-!
Shallow embedding of the rgb-curve core (src/utils/constants.ts and the
point-mutation logic of useCurvePoints in src/types/index.ts).

JavaScript numbers are modelled exactly by rationals; `Math.sqrt`, which
occurs only in the Fritsch-Carlson rescaling branch of the monotone cubic
interpolator, forces that interpolator's value into the reals.
`Math.round(r)` is `⌊r + 1/2⌋`, and storing a number into a `Uint8Array`
truncates it toward zero and reduces it modulo 256.
-/

namespace RGBCurve

/-- A point on the curve (`CurvePoint` in src/types/index.ts); the code never
restricts the coordinates, they are arbitrary JS numbers. -/
structure CurvePoint where
  x : ℚ
  y : ℚ
deriving DecidableEq, Repr

/-- `MIN_POINT_DISTANCE` from src/utils/constants.ts line 116. -/
def MIN_POINT_DISTANCE : ℚ := 5

/-- `clamp(value, min, max) = Math.min(Math.max(value, min), max)`. -/
def clamp (value lo hi : ℚ) : ℚ := min (max value lo) hi

/-- The same clamp applied to the (integer) result of `Math.round`. -/
def clampI (value lo hi : ℤ) : ℤ := min (max value lo) hi

/-- `getDefaultPoints()`: the two-point diagonal. -/
def getDefaultPoints : List CurvePoint := [⟨0, 0⟩, ⟨255, 255⟩]

/-- `sortPoints(points) = [...points].sort((a, b) => a.x - b.x)`: a stable
sort by ascending x that copies its input.  Modelled by insertion sort,
which is stable with respect to the `a.x ≤ b.x` comparison. -/
def sortPoints (points : List CurvePoint) : List CurvePoint :=
  List.insertionSort (fun a b => a.x ≤ b.x) points

/-- Array access `sorted[i]` (junk value out of range). -/
def nth (l : List CurvePoint) (i : ℕ) : CurvePoint := l.getD i ⟨0, 0⟩

/-- The segment-search loop `while (i < n - 1 && sorted[i + 1].x < x) i++`
shared by both interpolators: number of leading tail points with `p.x < x`. -/
def findSegIdx (sorted : List CurvePoint) (x : ℚ) : ℕ :=
  (sorted.tail.takeWhile (fun p => decide (p.x < x))).length

/-- `Math.round` on an exact rational. -/
def jsRoundQ (q : ℚ) : ℤ := ⌊q + 1 / 2⌋

/-- `Math.round` on a real. -/
noncomputable def jsRoundR (r : ℝ) : ℤ := ⌊r + 1 / 2⌋

/-- JS `ToIntegerOrInfinity`: truncation toward zero (rational case). -/
def jsTruncQ (q : ℚ) : ℤ := if 0 ≤ q then ⌊q⌋ else ⌈q⌉

/-- JS `ToIntegerOrInfinity`: truncation toward zero (real case). -/
noncomputable def jsTruncR (r : ℝ) : ℤ := if 0 ≤ r then ⌊r⌋ else ⌈r⌉

/-- Reduction of an integer modulo 256, as a `Uint8Array` store does. -/
def byteOfInt (z : ℤ) : Fin 256 :=
  ⟨(z % 256).toNat, by
    have h0 : (0 : ℤ) ≤ z % 256 := Int.emod_nonneg z (by norm_num)
    have h1 : z % 256 < 256 := Int.emod_lt_of_pos z (by norm_num)
    omega⟩

/-- `Uint8Array` coercion of a rational value. -/
def toUint8Q (q : ℚ) : Fin 256 := byteOfInt (jsTruncQ q)

/-- `Uint8Array` coercion of a real value. -/
noncomputable def toUint8R (r : ℝ) : Fin 256 := byteOfInt (jsTruncR r)

/-- Tangent `m0` of the monotone interpolator (finite differences,
one-sided at the left end), lines 194-200 of src/utils/constants.ts. -/
def monoM0 (sorted : List CurvePoint) (i : ℕ) (dx dy : ℚ) : ℚ :=
  if i = 0 then dy / dx
  else
    let prevDx := (nth sorted i).x - (nth sorted (i - 1)).x
    let prevDy := (nth sorted i).y - (nth sorted (i - 1)).y
    if prevDx = 0 then 0 else (dy / dx + prevDy / prevDx) / 2

/-- Tangent `m1` of the monotone interpolator (one-sided at the right end),
lines 202-208 of src/utils/constants.ts. -/
def monoM1 (sorted : List CurvePoint) (i n : ℕ) (dx dy : ℚ) : ℚ :=
  if i = n - 2 then dy / dx
  else
    let nextDx := (nth sorted (i + 2)).x - (nth sorted (i + 1)).x
    let nextDy := (nth sorted (i + 2)).y - (nth sorted (i + 1)).y
    if nextDx = 0 then 0 else (dy / dx + nextDy / nextDx) / 2

/-- The Fritsch-Carlson limiter, lines 210-229: a zero secant slope forces
both tangents to zero; a negative ratio zeroes that tangent; when
`alpha² + beta² > 9` both tangents are rescaled by `3 / sqrt(alpha² + beta²)`
(note the rescale uses the original, un-zeroed `alpha`, `beta`). -/
noncomputable def limitTangents (m0 m1 slope : ℚ) : ℝ × ℝ :=
  if slope = 0 then (0, 0)
  else
    let alpha := m0 / slope
    let beta := m1 / slope
    let s2 := alpha ^ 2 + beta ^ 2
    if 9 < s2 then
      (3 / Real.sqrt (s2 : ℝ) * (alpha : ℝ) * (slope : ℝ),
        3 / Real.sqrt (s2 : ℝ) * (beta : ℝ) * (slope : ℝ))
    else ((if alpha < 0 then 0 else (m0 : ℚ) : ℝ), (if beta < 0 then 0 else (m1 : ℚ) : ℝ))

/-- Cubic Hermite basis evaluation, lines 231-241. -/
noncomputable def hermite (t y0 y1 dx M0 M1 : ℝ) : ℝ :=
  (2 * t ^ 3 - 3 * t ^ 2 + 1) * y0 + (t ^ 3 - 2 * t ^ 2 + t) * dx * M0
    + (-2 * t ^ 3 + 3 * t ^ 2) * y1 + (t ^ 3 - t ^ 2) * dx * M1

/-- Body of the monotone interpolator's main branch (lines 180-243 of
src/utils/constants.ts) for segment index `i` of the sorted list. -/
noncomputable def monoSegEval (sorted : List CurvePoint) (n i : ℕ) (x : ℚ) : ℝ :=
  let x0 := (nth sorted i).x
  let y0 := (nth sorted i).y
  let y1 := (nth sorted (i + 1)).y
  let dx := (nth sorted (i + 1)).x - x0
  let dy := y1 - y0
  if dx = 0 then (y0 : ℝ)
  else
    let M := limitTangents (monoM0 sorted i dx dy) (monoM1 sorted i n dx dy) (dy / dx)
    ((clampI (jsRoundR (hermite (((x - x0) / dx : ℚ) : ℝ) (y0 : ℝ) (y1 : ℝ) (dx : ℝ) M.1 M.2))
      0 255 : ℤ) : ℝ)

/-- The hermite part of the monotone interpolator's segment evaluation. -/
noncomputable def segHermite (s : List CurvePoint) (n i : ℕ) (x : ℚ) : ℝ :=
  hermite (((x - (nth s i).x) / ((nth s (i + 1)).x - (nth s i).x) : ℚ) : ℝ)
    ((nth s i).y : ℝ) ((nth s (i + 1)).y : ℝ)
    (((nth s (i + 1)).x - (nth s i).x : ℚ) : ℝ)
    (limitTangents (monoM0 s i ((nth s (i + 1)).x - (nth s i).x)
        ((nth s (i + 1)).y - (nth s i).y))
      (monoM1 s i n ((nth s (i + 1)).x - (nth s i).x) ((nth s (i + 1)).y - (nth s i).y))
      (((nth s (i + 1)).y - (nth s i).y) / ((nth s (i + 1)).x - (nth s i).x))).1
    (limitTangents (monoM0 s i ((nth s (i + 1)).x - (nth s i).x)
        ((nth s (i + 1)).y - (nth s i).y))
      (monoM1 s i n ((nth s (i + 1)).x - (nth s i).x) ((nth s (i + 1)).y - (nth s i).y))
      (((nth s (i + 1)).y - (nth s i).y) / ((nth s (i + 1)).x - (nth s i).x))).2

/-- `monotoneCubicInterpolation(points, x)`, lines 160-244 of
src/utils/constants.ts. -/
noncomputable def monotoneCubicInterpolation (points : List CurvePoint) (x : ℚ) : ℝ :=
  let sorted := sortPoints points
  let n := sorted.length
  if n = 0 then (x : ℝ)
  else if n = 1 then ((nth sorted 0).y : ℝ)
  else if x ≤ (nth sorted 0).x then ((nth sorted 0).y : ℝ)
  else if (nth sorted (n - 1)).x ≤ x then ((nth sorted (n - 1)).y : ℝ)
  else monoSegEval sorted n (findSegIdx sorted x) x

/-- Body of the Catmull-Rom interpolator's main branch (lines 270-291 of
src/utils/constants.ts) for segment index `i` of the sorted list. -/
def catmullSegEval (sorted : List CurvePoint) (n i : ℕ) (x : ℚ) : ℚ :=
  let p0 := nth sorted (i - 1)
  let p1 := nth sorted i
  let p2 := nth sorted (min (n - 1) (i + 1))
  let p3 := nth sorted (min (n - 1) (i + 2))
  let dx := p2.x - p1.x
  if dx = 0 then p1.y
  else
    let t := (x - p1.x) / dx
    let result := 1 / 2 * (2 * p1.y + (-p0.y + p2.y) * t
      + (2 * p0.y - 5 * p1.y + 4 * p2.y - p3.y) * t ^ 2
      + (-p0.y + 3 * p1.y - 3 * p2.y + p3.y) * t ^ 3)
    ((clampI (jsRoundQ result) 0 255 : ℤ) : ℚ)

/-- `catmullRomInterpolation(points, x)`, lines 250-292 of
src/utils/constants.ts. -/
def catmullRomInterpolation (points : List CurvePoint) (x : ℚ) : ℚ :=
  let sorted := sortPoints points
  let n := sorted.length
  if n = 0 then x
  else if n = 1 then (nth sorted 0).y
  else if x ≤ (nth sorted 0).x then (nth sorted 0).y
  else if (nth sorted (n - 1)).x ≤ x then (nth sorted (n - 1)).y
  else catmullSegEval sorted n (findSegIdx sorted x) x

/-- The two interpolation kinds selectable in the component. -/
inductive InterpKind where
  | monotone
  | catmullRom
deriving DecidableEq

/-- `generateChannelLUT(points, interpolation)`, lines 297-312: sample the
selected interpolator at every integer 0..255 into a `Uint8Array`. -/
noncomputable def generateChannelLUT (points : List CurvePoint) (interpolation : InterpKind) :
    Fin 256 → Fin 256 :=
  fun i =>
    match interpolation with
    | .monotone => toUint8R (monotoneCubicInterpolation points (i.val : ℚ))
    | .catmullRom => toUint8Q (catmullRomInterpolation points (i.val : ℚ))

/-- `LUTData`: one 256-entry byte table per channel. -/
structure LUTData where
  master : Fin 256 → Fin 256
  red : Fin 256 → Fin 256
  green : Fin 256 → Fin 256
  blue : Fin 256 → Fin 256

/-- `ChannelPoints`: the point lists of the four channels. -/
structure ChannelPoints where
  master : List CurvePoint
  red : List CurvePoint
  green : List CurvePoint
  blue : List CurvePoint
deriving DecidableEq

/-- `getDefaultChannelPoints()`. -/
def getDefaultChannelPoints : ChannelPoints :=
  ⟨getDefaultPoints, getDefaultPoints, getDefaultPoints, getDefaultPoints⟩

/-- `generateLUT(channelPoints, interpolation)`, lines 317-327. -/
noncomputable def generateLUT (channelPoints : ChannelPoints) (interpolation : InterpKind) :
    LUTData :=
  ⟨generateChannelLUT channelPoints.master interpolation,
    generateChannelLUT channelPoints.red interpolation,
    generateChannelLUT channelPoints.green interpolation,
    generateChannelLUT channelPoints.blue interpolation⟩

/-- `clamp(r, 0, 255)` used as a `Uint8Array` index: the clamped value is a
valid index 0..255. -/
def clampByte (v : ℤ) : Fin 256 :=
  ⟨(clampI v 0 255).toNat, by
    have h1 : clampI v 0 255 ≤ 255 := min_le_right _ _
    have h2 : (0 : ℤ) ≤ clampI v 0 255 := le_min (le_max_right _ _) (by norm_num)
    omega⟩

/-- `applyLUT(r, g, b, lut)`, lines 332-349: per-channel LUT first, then the
master LUT. -/
def applyLUT (r g b : ℤ) (lut : LUTData) : Fin 256 × Fin 256 × Fin 256 :=
  let newR := lut.red (clampByte r)
  let newG := lut.green (clampByte g)
  let newB := lut.blue (clampByte b)
  (lut.master newR, lut.master newG, lut.master newB)

/-- The proximity check of `addPoint` (src/types/index.ts lines 486-492):
some existing point lies within `MIN_POINT_DISTANCE` of the new x. -/
def addPointCheck (pts : List CurvePoint) (point : CurvePoint) : Bool :=
  (sortPoints pts).any fun p => decide (|p.x - point.x| < MIN_POINT_DISTANCE)

/-- `addPoint` outcome: `none` when the insertion is rejected (the handler
returns early, stores nothing and fires no notification), otherwise the new
stored list, the old one with the raw point appended and re-sorted. -/
def addPointResult (pts : List CurvePoint) (point : CurvePoint) : Option (List CurvePoint) :=
  if addPointCheck pts point then none
  else some (sortPoints (pts ++ [point]))

/-- The stored point list after `addPoint`. -/
def addPoint (pts : List CurvePoint) (point : CurvePoint) : List CurvePoint :=
  (addPointResult pts point).getD pts

/-- The stored point list after `removePoint` (src/types/index.ts lines
506-528): rejected below 3 points or at a sorted endpoint index, otherwise
the sorted list with entry `index` filtered out. -/
def removePoint (pts : List CurvePoint) (index : ℕ) : List CurvePoint :=
  if pts.length ≤ 2 then pts
  else
    let sorted := sortPoints pts
    if index = 0 ∨ index = sorted.length - 1 then pts
    else sorted.eraseIdx index

/-- The stored point list after `updatePoint` (src/types/index.ts lines
531-565): the first sorted point is forced to x = 0, the last to x = 255,
an interior point's x is clamped between its current neighbours offset by
`MIN_POINT_DISTANCE`, and y is always clamped to [0, 255].  An index outside
the sorted list makes the JS code throw on an `undefined` neighbour access,
leaving the stored state unchanged; that case is modelled as a no-op. -/
def updatePoint (pts : List CurvePoint) (index : ℕ) (newPoint : CurvePoint) : List CurvePoint :=
  let sorted := sortPoints pts
  if sorted.length ≤ index then pts
  else
    let x :=
      if index = 0 then 0
      else if index = sorted.length - 1 then 255
      else clamp newPoint.x ((nth sorted (index - 1)).x + MIN_POINT_DISTANCE)
        ((nth sorted (index + 1)).x - MIN_POINT_DISTANCE)
    let y := clamp newPoint.y 0 255
    sorted.set index ⟨x, y⟩

/-- The four channels. -/
inductive Channel where
  | master
  | red
  | green
  | blue
deriving DecidableEq

/-- Read one channel's point list. -/
def ChannelPoints.get (cp : ChannelPoints) : Channel → List CurvePoint
  | .master => cp.master
  | .red => cp.red
  | .green => cp.green
  | .blue => cp.blue

/-- Replace one channel's point list, the others untouched. -/
def ChannelPoints.setChannel (cp : ChannelPoints) (c : Channel) (l : List CurvePoint) :
    ChannelPoints :=
  match c with
  | .master => { cp with master := l }
  | .red => { cp with red := l }
  | .green => { cp with green := l }
  | .blue => { cp with blue := l }

/-- Session-level `addPoint(channel, point)`. -/
def sessionAddPoint (cp : ChannelPoints) (c : Channel) (p : CurvePoint) : ChannelPoints :=
  cp.setChannel c (addPoint (cp.get c) p)

/-- One mutation call on a single channel's point list. -/
inductive CurveOp where
  | add (p : CurvePoint)
  | remove (index : ℕ)
  | update (index : ℕ) (p : CurvePoint)

/-- Apply one mutation. -/
def applyOp (pts : List CurvePoint) : CurveOp → List CurvePoint
  | .add p => addPoint pts p
  | .remove i => removePoint pts i
  | .update i p => updatePoint pts i p

/-- Apply a finite sequence of mutations in order. -/
def applyOps (pts : List CurvePoint) (ops : List CurveOp) : List CurvePoint :=
  ops.foldl applyOp pts

/-- The stored list is sorted by ascending x. -/
def SortedByX (pts : List CurvePoint) : Prop :=
  List.Sorted (fun a b : CurvePoint => a.x ≤ b.x) pts

/-- Adjacent points differ in x by at least `MIN_POINT_DISTANCE`. -/
def MinGap (pts : List CurvePoint) : Prop :=
  List.Chain' (fun a b : CurvePoint => a.x + MIN_POINT_DISTANCE ≤ b.x) pts

/-- A point whose coordinates are integers in [0, 255] (the spec's
`CurvePoint` data model). -/
def ValidPt (p : CurvePoint) : Prop :=
  p.x.den = 1 ∧ p.y.den = 1 ∧ 0 ≤ p.x ∧ p.x ≤ 255 ∧ 0 ≤ p.y ∧ p.y ≤ 255

/-- The x coordinates of a list are pairwise distinct. -/
def DistinctX (pts : List CurvePoint) : Prop :=
  (pts.map fun p => p.x).Nodup

/-- The y values are non-decreasing in x, as a property of the point set. -/
def MonotoneData (pts : List CurvePoint) : Prop :=
  ∀ p ∈ pts, ∀ q ∈ pts, p.x < q.x → p.y ≤ q.y

/-- Strengthened induction invariant for the mutation state machine: at
least two points, adjacent x-gaps of at least `MIN_POINT_DISTANCE` (hence
strictly sorted), first sorted x equal to 0 and last equal to 255. -/
def GoodState (pts : List CurvePoint) : Prop :=
  2 ≤ pts.length ∧ MinGap pts ∧ (nth pts 0).x = 0 ∧ (nth pts (pts.length - 1)).x = 255

instance : IsTotal CurvePoint (fun a b : CurvePoint => a.x ≤ b.x) :=
  ⟨fun a b => le_total a.x b.x⟩

instance : IsTrans CurvePoint (fun a b : CurvePoint => a.x ≤ b.x) :=
  ⟨fun _ _ _ h1 h2 => le_trans h1 h2⟩

instance : IsTrans CurvePoint (fun a b : CurvePoint => a.x < b.x) :=
  ⟨fun _ _ _ h1 h2 => lt_trans h1 h2⟩

theorem sortPoints_perm (pts : List CurvePoint) : (sortPoints pts).Perm pts :=
  List.perm_insertionSort _ pts

theorem sortPoints_sorted (pts : List CurvePoint) : SortedByX (sortPoints pts) :=
  List.sorted_insertionSort _ pts

theorem sortPoints_length (pts : List CurvePoint) : (sortPoints pts).length = pts.length :=
  List.length_insertionSort _ pts

theorem sortPoints_eq_self {pts : List CurvePoint} (h : SortedByX pts) : sortPoints pts = pts :=
  List.Sorted.insertionSort_eq h

theorem mem_sortPoints {p : CurvePoint} {pts : List CurvePoint} :
    p ∈ sortPoints pts ↔ p ∈ pts :=
  (sortPoints_perm pts).mem_iff

theorem mono_eq_left {pts : List CurvePoint} {x : ℚ} (hn : (sortPoints pts).length ≠ 0)
    (hx : x ≤ (nth (sortPoints pts) 0).x) :
    monotoneCubicInterpolation pts x = ((nth (sortPoints pts) 0).y : ℝ) := by
  unfold monotoneCubicInterpolation
  rcases Nat.lt_or_ge (sortPoints pts).length 2 with h1 | h1
  · rw [if_neg (by omega), if_pos (by omega)]
  · rw [if_neg (by omega), if_neg (by omega), if_pos hx]

theorem mono_eq_right {pts : List CurvePoint} {x : ℚ} (hn : (sortPoints pts).length ≠ 0)
    (hx : ¬ x ≤ (nth (sortPoints pts) 0).x)
    (hx2 : (nth (sortPoints pts) ((sortPoints pts).length - 1)).x ≤ x) :
    monotoneCubicInterpolation pts x =
      ((nth (sortPoints pts) ((sortPoints pts).length - 1)).y : ℝ) := by
  unfold monotoneCubicInterpolation
  rcases Nat.lt_or_ge (sortPoints pts).length 2 with h1 | h1
  · rw [if_neg (by omega), if_pos (by omega), show (sortPoints pts).length - 1 = 0 by omega]
  · rw [if_neg (by omega), if_neg (by omega), if_neg hx, if_pos hx2]

theorem mono_eq_interior {pts : List CurvePoint} {x : ℚ}
    (hn : 2 ≤ (sortPoints pts).length)
    (hx : ¬ x ≤ (nth (sortPoints pts) 0).x)
    (hx2 : ¬ (nth (sortPoints pts) ((sortPoints pts).length - 1)).x ≤ x) :
    monotoneCubicInterpolation pts x =
      monoSegEval (sortPoints pts) (sortPoints pts).length (findSegIdx (sortPoints pts) x) x := by
  unfold monotoneCubicInterpolation
  rw [if_neg (by omega), if_neg (by omega), if_neg hx, if_neg hx2]

theorem catmull_eq_left {pts : List CurvePoint} {x : ℚ} (hn : (sortPoints pts).length ≠ 0)
    (hx : x ≤ (nth (sortPoints pts) 0).x) :
    catmullRomInterpolation pts x = (nth (sortPoints pts) 0).y := by
  unfold catmullRomInterpolation
  rcases Nat.lt_or_ge (sortPoints pts).length 2 with h1 | h1
  · rw [if_neg (by omega), if_pos (by omega)]
  · rw [if_neg (by omega), if_neg (by omega), if_pos hx]

theorem catmull_eq_right {pts : List CurvePoint} {x : ℚ} (hn : (sortPoints pts).length ≠ 0)
    (hx : ¬ x ≤ (nth (sortPoints pts) 0).x)
    (hx2 : (nth (sortPoints pts) ((sortPoints pts).length - 1)).x ≤ x) :
    catmullRomInterpolation pts x = (nth (sortPoints pts) ((sortPoints pts).length - 1)).y := by
  unfold catmullRomInterpolation
  rcases Nat.lt_or_ge (sortPoints pts).length 2 with h1 | h1
  · rw [if_neg (by omega), if_pos (by omega), show (sortPoints pts).length - 1 = 0 by omega]
  · rw [if_neg (by omega), if_neg (by omega), if_neg hx, if_pos hx2]

theorem takeWhile_getD_of_lt {α : Type} {P : α → Bool} {l : List α} {j : ℕ} (d : α)
    (h : j < (l.takeWhile P).length) : P (l.getD j d) = true := by
  induction l generalizing j with
  | nil => simp [List.takeWhile] at h
  | cons a t ih =>
    rw [List.takeWhile_cons] at h
    by_cases hP : P a = true
    · rw [if_pos hP] at h
      cases j with
      | zero => simpa using hP
      | succ j => simpa using ih (by simpa using h)
    · simp [hP] at h

theorem takeWhile_getD_stop {α : Type} {P : α → Bool} {l : List α} (d : α)
    (h : (l.takeWhile P).length < l.length) :
    ¬ P (l.getD (l.takeWhile P).length d) = true := by
  induction l with
  | nil => simp at h
  | cons a t ih =>
    rw [List.takeWhile_cons]
    by_cases hP : P a = true
    · rw [List.takeWhile_cons, if_pos hP] at h
      rw [if_pos hP]
      simpa using ih (by simpa using h)
    · simp [hP]

theorem takeWhile_length_le {α : Type} (P : α → Bool) (l : List α) :
    (l.takeWhile P).length ≤ l.length :=
  (List.takeWhile_sublist P).length_le

theorem takeWhile_length_mono {α : Type} {P Q : α → Bool} (l : List α)
    (h : ∀ a, P a = true → Q a = true) :
    (l.takeWhile P).length ≤ (l.takeWhile Q).length := by
  induction l with
  | nil => simp
  | cons a t ih =>
    rw [List.takeWhile_cons, List.takeWhile_cons]
    by_cases hP : P a = true
    · rw [if_pos hP, if_pos (h a hP)]
      simpa using ih
    · simp [hP]

theorem getD_tail {α : Type} (l : List α) (j : ℕ) (d : α) :
    l.tail.getD j d = l.getD (j + 1) d := by
  cases l <;> simp

theorem findSegIdx_le (sorted : List CurvePoint) (x : ℚ) :
    findSegIdx sorted x ≤ sorted.length - 1 := by
  have := takeWhile_length_le (fun p : CurvePoint => decide (p.x < x)) sorted.tail
  simpa [findSegIdx] using this

theorem findSegIdx_mono (sorted : List CurvePoint) {u v : ℚ} (h : u ≤ v) :
    findSegIdx sorted u ≤ findSegIdx sorted v := by
  refine takeWhile_length_mono _ fun p hp => ?_
  simp only [decide_eq_true_eq] at hp ⊢
  exact lt_of_lt_of_le hp h

theorem findSegIdx_lower {sorted : List CurvePoint} {x : ℚ}
    (hx : ¬ x ≤ (nth sorted 0).x) :
    (nth sorted (findSegIdx sorted x)).x < x := by
  rcases Nat.eq_zero_or_pos (findSegIdx sorted x) with h0 | h0
  · rw [h0]; exact lt_of_not_le hx
  · have hj : findSegIdx sorted x - 1 < (sorted.tail.takeWhile
        (fun p : CurvePoint => decide (p.x < x))).length := by
      have : (sorted.tail.takeWhile (fun p : CurvePoint => decide (p.x < x))).length =
          findSegIdx sorted x := rfl
      omega
    have := takeWhile_getD_of_lt (⟨0, 0⟩ : CurvePoint) hj
    rw [getD_tail] at this
    have he : findSegIdx sorted x - 1 + 1 = findSegIdx sorted x := by omega
    rw [he] at this
    simpa [nth] using this

theorem findSegIdx_pred_lt {sorted : List CurvePoint} {x : ℚ}
    (hn : 2 ≤ sorted.length)
    (hx2 : ¬ (nth sorted (sorted.length - 1)).x ≤ x) :
    findSegIdx sorted x < sorted.length - 1 := by
  by_contra hcon
  have hEq : findSegIdx sorted x = sorted.length - 1 := by
    have := findSegIdx_le sorted x
    omega
  have hj : sorted.length - 2 < (sorted.tail.takeWhile
      (fun p : CurvePoint => decide (p.x < x))).length := by
    have : (sorted.tail.takeWhile (fun p : CurvePoint => decide (p.x < x))).length =
        findSegIdx sorted x := rfl
    omega
  have := takeWhile_getD_of_lt (⟨0, 0⟩ : CurvePoint) hj
  rw [getD_tail] at this
  have he : sorted.length - 2 + 1 = sorted.length - 1 := by omega
  rw [he] at this
  simp only [decide_eq_true_eq] at this
  exact hx2 (le_of_lt (by simpa [nth] using this))

theorem findSegIdx_upper {sorted : List CurvePoint} {x : ℚ}
    (hlt : findSegIdx sorted x < sorted.length - 1) :
    x ≤ (nth sorted (findSegIdx sorted x + 1)).x := by
  have hj : (sorted.tail.takeWhile (fun p : CurvePoint => decide (p.x < x))).length <
      sorted.tail.length := by
    have h1 : (sorted.tail.takeWhile (fun p : CurvePoint => decide (p.x < x))).length =
        findSegIdx sorted x := rfl
    have h2 : sorted.tail.length = sorted.length - 1 := List.length_tail _
    omega
  have := takeWhile_getD_stop (⟨0, 0⟩ : CurvePoint) hj
  rw [getD_tail] at this
  simp only [decide_eq_true_eq] at this
  exact le_of_not_lt (by simpa [nth, findSegIdx] using this)

theorem nth_mem {l : List CurvePoint} {i : ℕ} (h : i < l.length) : nth l i ∈ l := by
  rw [nth, List.getD_eq_getElem _ _ h]
  exact List.getElem_mem h

theorem strictX_of_sorted_distinct {l : List CurvePoint} (hs : SortedByX l) (hd : DistinctX l) :
    List.Pairwise (fun a b : CurvePoint => a.x < b.x) l := by
  have hne : List.Pairwise (fun a b : CurvePoint => a.x ≠ b.x) l :=
    List.pairwise_map.1 hd
  exact (List.Pairwise.and hs hne).imp fun h => lt_of_le_of_ne h.1 h.2

theorem distinctX_sortPoints {pts : List CurvePoint} (hd : DistinctX pts) :
    DistinctX (sortPoints pts) := by
  have h := ((sortPoints_perm pts).map fun p : CurvePoint => p.x).nodup_iff
  exact h.2 hd

theorem monotoneData_sortPoints {pts : List CurvePoint} (hm : MonotoneData pts) :
    MonotoneData (sortPoints pts) := fun p hp q hq =>
  hm p (mem_sortPoints.1 hp) q (mem_sortPoints.1 hq)

theorem nth_lt_nth {l : List CurvePoint}
    (hs : List.Pairwise (fun a b : CurvePoint => a.x < b.x) l) {j k : ℕ}
    (hjk : j < k) (hk : k < l.length) : (nth l j).x < (nth l k).x := by
  have hj : j < l.length := lt_trans hjk hk
  rw [nth, nth, List.getD_eq_getElem _ _ hj, List.getD_eq_getElem _ _ hk]
  exact List.pairwise_iff_get.1 hs ⟨j, hj⟩ ⟨k, hk⟩ hjk

theorem nth_le_nth {l : List CurvePoint} (hs : SortedByX l) {j k : ℕ}
    (hjk : j ≤ k) (hk : k < l.length) : (nth l j).x ≤ (nth l k).x := by
  rcases Nat.eq_or_lt_of_le hjk with h | h
  · rw [h]
  · have hj : j < l.length := lt_trans h hk
    rw [nth, nth, List.getD_eq_getElem _ _ hj, List.getD_eq_getElem _ _ hk]
    exact List.pairwise_iff_get.1 hs ⟨j, hj⟩ ⟨k, hk⟩ h

theorem nth_y_mono {l : List CurvePoint}
    (hs : List.Pairwise (fun a b : CurvePoint => a.x < b.x) l)
    (hm : MonotoneData l) {j k : ℕ}
    (hjk : j ≤ k) (hk : k < l.length) : (nth l j).y ≤ (nth l k).y := by
  rcases Nat.eq_or_lt_of_le hjk with h | h
  · rw [h]
  · exact hm _ (nth_mem (lt_trans h hk)) _ (nth_mem hk) (nth_lt_nth hs h hk)

theorem minGap_nth {l : List CurvePoint} (hg : MinGap l) {j : ℕ} (h : j + 1 < l.length) :
    (nth l j).x + MIN_POINT_DISTANCE ≤ (nth l (j + 1)).x := by
  have hj : j < l.length := by omega
  rw [nth, nth, List.getD_eq_getElem _ _ hj, List.getD_eq_getElem _ _ h]
  have := List.chain'_iff_get.1 hg j (by omega)
  simpa using this

theorem minGap_strictX {l : List CurvePoint} (hg : MinGap l) :
    List.Pairwise (fun a b : CurvePoint => a.x < b.x) l := by
  have : List.Chain' (fun a b : CurvePoint => a.x < b.x) l := by
    refine List.Chain'.imp ?_ hg
    intro a b hab
    have h5 : (0 : ℚ) < MIN_POINT_DISTANCE := by norm_num [MIN_POINT_DISTANCE]
    linarith
  exact List.chain'_iff_pairwise.1 this

theorem minGap_sortedByX {l : List CurvePoint} (hg : MinGap l) : SortedByX l :=
  (minGap_strictX hg).imp le_of_lt

theorem catmull_eq_interior {pts : List CurvePoint} {x : ℚ}
    (hn : 2 ≤ (sortPoints pts).length)
    (hx : ¬ x ≤ (nth (sortPoints pts) 0).x)
    (hx2 : ¬ (nth (sortPoints pts) ((sortPoints pts).length - 1)).x ≤ x) :
    catmullRomInterpolation pts x =
      catmullSegEval (sortPoints pts) (sortPoints pts).length (findSegIdx (sortPoints pts) x) x := by
  unfold catmullRomInterpolation
  rw [if_neg (by omega), if_neg (by omega), if_neg hx, if_neg hx2]

theorem addPointCheck_iff {pts : List CurvePoint} {p : CurvePoint} :
    addPointCheck pts p = true ↔ ∃ q ∈ pts, |q.x - p.x| < MIN_POINT_DISTANCE := by
  unfold addPointCheck
  rw [List.any_eq_true]
  constructor
  · rintro ⟨q, hq, hd⟩
    exact ⟨q, mem_sortPoints.1 hq, by simpa using hd⟩
  · rintro ⟨q, hq, hd⟩
    exact ⟨q, mem_sortPoints.2 hq, by simpa using hd⟩

theorem addPointResult_none_iff {pts : List CurvePoint} {p : CurvePoint} :
    addPointResult pts p = none ↔ ∃ q ∈ pts, |q.x - p.x| < MIN_POINT_DISTANCE := by
  unfold addPointResult
  by_cases h : addPointCheck pts p = true
  · simp only [if_pos h]
    simpa using addPointCheck_iff.1 h
  · simp only [if_neg h]
    simp only [reduceCtorEq, false_iff]
    intro hex
    exact h (addPointCheck_iff.2 hex)

/-- Claim C4: `applyLUT` output is the master-LUT image of the per-channel
LUT image of each clamped input channel; concretely, with a red LUT sending
10 to 20 and a master LUT sending 20 to 235, the red component of
`applyLUT(10, 0, 0, lutSet)` is 235. -/
theorem C4_applyLUT_composition_order :
    (∀ (lut : LUTData) (r g b : ℤ),
      applyLUT r g b lut =
        (lut.master (lut.red (clampByte r)), lut.master (lut.green (clampByte g)),
          lut.master (lut.blue (clampByte b)))) ∧
    (∀ lut : LUTData, lut.red 10 = 20 → lut.master 20 = 235 →
      (applyLUT 10 0 0 lut).1 = 235) := by
  constructor
  · intro lut r g b
    rfl
  · intro lut h1 h2
    show lut.master (lut.red (clampByte 10)) = 235
    have hc : clampByte 10 = (10 : Fin 256) := rfl
    rw [hc, h1, h2]

/-- Witness for C4 at a concrete LUT set: red doubles-then-clamps, master
inverts, green and blue are the identity. -/
theorem C4_applyLUT_composition_order_witness :
    (applyLUT 10 0 0
      ⟨fun i => ⟨255 - i.val, by omega⟩, fun i => ⟨min (2 * i.val) 255, by omega⟩,
        fun i => i, fun i => i⟩).1 = 235 :=
  C4_applyLUT_composition_order.2 _ (by decide) (by decide)

/-- Claim C8: `addPoint` is rejected as a no-op, with no new stored list,
exactly when an existing point of the channel lies within
`MIN_POINT_DISTANCE` of the new point's x; otherwise the point is appended
and the result re-sorted.  In particular adding (130, 50) to
[(0,0), (128,200), (255,255)] is rejected. -/
theorem C8_addPoint_reject_iff_close :
    (∀ (pts : List CurvePoint) (p : CurvePoint),
      addPointResult pts p = none ↔ ∃ q ∈ pts, |q.x - p.x| < MIN_POINT_DISTANCE) ∧
    (∀ (pts : List CurvePoint) (p : CurvePoint),
      addPointResult pts p ≠ none →
        addPointResult pts p = some (sortPoints (pts ++ [p])) ∧
          addPoint pts p = sortPoints (pts ++ [p])) ∧
    (addPointResult [⟨0, 0⟩, ⟨128, 200⟩, ⟨255, 255⟩] ⟨130, 50⟩ = none ∧
      addPoint [⟨0, 0⟩, ⟨128, 200⟩, ⟨255, 255⟩] ⟨130, 50⟩ = [⟨0, 0⟩, ⟨128, 200⟩, ⟨255, 255⟩]) := by
  refine ⟨fun pts p => addPointResult_none_iff, fun pts p h => ?_, ?_, ?_⟩
  · unfold addPointResult at h ⊢
    unfold addPoint addPointResult
    by_cases hc : addPointCheck pts p = true
    · rw [if_pos hc] at h
      exact absurd rfl h
    · rw [if_neg hc]
      exact ⟨rfl, rfl⟩
  · norm_num [addPointResult, addPointCheck, sortPoints, List.insertionSort,
      List.orderedInsert, MIN_POINT_DISTANCE]
  · norm_num [addPoint, addPointResult, addPointCheck, sortPoints, List.insertionSort,
      List.orderedInsert, MIN_POINT_DISTANCE]

/-- Witness for C8: a non-rejected insertion at a concrete input. -/
theorem C8_addPoint_reject_iff_close_witness :
    addPointResult getDefaultPoints ⟨128, 200⟩ =
      some (sortPoints (getDefaultPoints ++ [⟨128, 200⟩])) ∧
    addPoint getDefaultPoints ⟨128, 200⟩ = sortPoints (getDefaultPoints ++ [⟨128, 200⟩]) :=
  C8_addPoint_reject_iff_close.2.1 getDefaultPoints ⟨128, 200⟩ (fun hcon => by
    rcases addPointResult_none_iff.1 hcon with ⟨q, hq, hd⟩
    simp only [getDefaultPoints, List.mem_cons, List.not_mem_nil, or_false] at hq
    rcases hq with h | h <;> rw [h] at hd <;> norm_num [MIN_POINT_DISTANCE] at hd)

/-- Claim C9: `removePoint` is a no-op whenever the set has at most two
points or the index addresses the first or last sorted point; a point is
only ever removed when the set has at least 3 points and the index is
interior, in which case the stored list is the sorted list with that entry
removed. -/
theorem C9_removePoint_endpoint_permanence :
    (∀ (pts : List CurvePoint) (i : ℕ), pts.length ≤ 2 → removePoint pts i = pts) ∧
    (∀ (pts : List CurvePoint) (i : ℕ), i = 0 ∨ i = (sortPoints pts).length - 1 →
      removePoint pts i = pts ∧ (removePoint pts i).length = pts.length) ∧
    (∀ (pts : List CurvePoint) (i : ℕ), (removePoint pts i).length < pts.length →
      3 ≤ pts.length ∧ 1 ≤ i ∧ i < pts.length - 1 ∧
        removePoint pts i = (sortPoints pts).eraseIdx i) := by
  refine ⟨fun pts i h => ?_, fun pts i h => ?_, fun pts i h => ?_⟩
  · unfold removePoint
    rw [if_pos h]
  · unfold removePoint
    by_cases h2 : pts.length ≤ 2
    · rw [if_pos h2]
      exact ⟨rfl, rfl⟩
    · rw [if_neg h2, if_pos h]
      exact ⟨rfl, rfl⟩
  · unfold removePoint at h ⊢
    by_cases h2 : pts.length ≤ 2
    · rw [if_pos h2] at h
      omega
    · rw [if_neg h2] at h
      by_cases h3 : i = 0 ∨ i = (sortPoints pts).length - 1
      · rw [if_pos h3] at h
        omega
      · rw [if_neg h3] at h ⊢
        rw [if_neg h2]
        push_neg at h3
        have hlen : ((sortPoints pts).eraseIdx i).length =
            if i < (sortPoints pts).length then (sortPoints pts).length - 1
            else (sortPoints pts).length := List.length_eraseIdx _ _
        rw [sortPoints_length] at hlen h3
        by_cases h4 : i < pts.length
        · exact ⟨by omega, by omega, by omega, rfl⟩
        · rw [if_neg h4] at hlen
          omega

/-- Witness for C9: concrete no-op removals. -/
theorem C9_removePoint_endpoint_permanence_witness :
    removePoint getDefaultPoints 1 = getDefaultPoints ∧
    removePoint [⟨0, 0⟩, ⟨100, 100⟩, ⟨255, 255⟩] 0 = [⟨0, 0⟩, ⟨100, 100⟩, ⟨255, 255⟩] :=
  ⟨C9_removePoint_endpoint_permanence.1 getDefaultPoints 1 (by norm_num [getDefaultPoints]),
    (C9_removePoint_endpoint_permanence.2.1 [⟨0, 0⟩, ⟨100, 100⟩, ⟨255, 255⟩] 0 (Or.inl rfl)).1⟩

/-- Counterexample to claim C2: `addPoint` stores out-of-range coordinates
unclamped — adding (300, 500) to the default diagonal stores the raw point
(300, 500), whose coordinates lie outside [0, 255]. -/
theorem C2_cex_addPoint_stores_unclamped :
    addPoint getDefaultPoints ⟨300, 500⟩ = [⟨0, 0⟩, ⟨255, 255⟩, ⟨300, 500⟩] ∧
    ∃ p ∈ addPoint getDefaultPoints ⟨300, 500⟩, ¬ (p.x ≤ 255 ∧ p.y ≤ 255) := by
  have h1 : addPoint getDefaultPoints ⟨300, 500⟩ = [⟨0, 0⟩, ⟨255, 255⟩, ⟨300, 500⟩] := by
    norm_num [addPoint, addPointResult, addPointCheck, sortPoints, getDefaultPoints,
      List.insertionSort, List.orderedInsert, MIN_POINT_DISTANCE]
  refine ⟨h1, ⟨300, 500⟩, ?_, ?_⟩
  · rw [h1]
    simp
  · norm_num

/-- Claim C2, amended: out-of-range coordinates never cause `addPoint` or
`updatePoint` to be rejected — `addPoint` rejects only on x-proximity and
stores the raw, unclamped point, while `updatePoint` (at a valid sorted
index) always stores a point and clamps its y to [0, 255]. -/
theorem C2_amended_clamping :
    (∀ (pts : List CurvePoint) (p : CurvePoint),
      addPointResult pts p = none ↔ ∃ q ∈ pts, |q.x - p.x| < MIN_POINT_DISTANCE) ∧
    (∀ (pts : List CurvePoint) (p : CurvePoint) (l : List CurvePoint),
      addPointResult pts p = some l → p ∈ l) ∧
    (∀ (pts : List CurvePoint) (i : ℕ) (p : CurvePoint), i < (sortPoints pts).length →
      (updatePoint pts i p).length = pts.length ∧
      (nth (updatePoint pts i p) i).y = clamp p.y 0 255 ∧
      0 ≤ (nth (updatePoint pts i p) i).y ∧ (nth (updatePoint pts i p) i).y ≤ 255) := by
  refine ⟨fun pts p => addPointResult_none_iff, fun pts p l h => ?_, fun pts i p h => ?_⟩
  · unfold addPointResult at h
    by_cases hc : addPointCheck pts p = true
    · rw [if_pos hc] at h
      exact absurd h (by simp)
    · rw [if_neg hc] at h
      injection h with h2
      rw [← h2]
      exact mem_sortPoints.2 (by simp)
  · unfold updatePoint
    rw [if_neg (by omega)]
    have hset : ∀ q : CurvePoint, ((sortPoints pts).set i q).length = pts.length := by
      intro q
      rw [List.length_set, sortPoints_length]
    have hnth : ∀ q : CurvePoint, nth ((sortPoints pts).set i q) i = q := by
      intro q
      have hi : i < ((sortPoints pts).set i q).length := by
        rw [List.length_set]
        exact h
      rw [nth, List.getD_eq_getElem _ _ hi, List.getElem_set, if_pos rfl]
    refine ⟨hset _, ?_, ?_, ?_⟩
    · rw [hnth]
    · rw [hnth]
      exact le_min (le_max_right _ _) (by norm_num)
    · rw [hnth]
      exact min_le_right _ _

/-- Witness for C2 (amended) at a concrete update with an out-of-range y. -/
theorem C2_amended_clamping_witness :
    (updatePoint getDefaultPoints 0 ⟨128, 300⟩).length = getDefaultPoints.length ∧
    (nth (updatePoint getDefaultPoints 0 ⟨128, 300⟩) 0).y = clamp 300 0 255 ∧
    0 ≤ (nth (updatePoint getDefaultPoints 0 ⟨128, 300⟩) 0).y ∧
    (nth (updatePoint getDefaultPoints 0 ⟨128, 300⟩) 0).y ≤ 255 :=
  C2_amended_clamping.2.2 getDefaultPoints 0 ⟨128, 300⟩
    (by norm_num [sortPoints, getDefaultPoints, List.insertionSort, List.orderedInsert])

theorem jsRoundR_intCast (m : ℤ) : jsRoundR (m : ℝ) = m := by
  unfold jsRoundR
  rw [Int.floor_eq_iff]
  constructor <;> linarith

theorem jsRoundQ_intCast (m : ℤ) : jsRoundQ (m : ℚ) = m := by
  unfold jsRoundQ
  rw [Int.floor_eq_iff]
  constructor <;> linarith

theorem clampI_of_mem {m : ℤ} (h0 : 0 ≤ m) (h1 : m ≤ 255) : clampI m 0 255 = m := by
  unfold clampI
  omega

theorem roundClampR_intCast {m : ℤ} (h0 : 0 ≤ m) (h1 : m ≤ 255) :
    ((clampI (jsRoundR (m : ℝ)) 0 255 : ℤ) : ℝ) = (m : ℝ) := by
  rw [jsRoundR_intCast, clampI_of_mem h0 h1]

theorem roundClampQ_intCast {m : ℤ} (h0 : 0 ≤ m) (h1 : m ≤ 255) :
    ((clampI (jsRoundQ (m : ℚ)) 0 255 : ℤ) : ℚ) = (m : ℚ) := by
  rw [jsRoundQ_intCast, clampI_of_mem h0 h1]

theorem exists_int_of_den_one {q : ℚ} (h : q.den = 1) : ∃ m : ℤ, q = (m : ℚ) :=
  ⟨q.num, ((Rat.den_eq_one_iff q).1 h).symm⟩

theorem toUint8R_intCast {m : ℤ} (h0 : 0 ≤ m) (h1 : m < 256) :
    toUint8R (m : ℝ) = ⟨m.toNat, by omega⟩ := by
  unfold toUint8R jsTruncR byteOfInt
  rw [if_pos (by exact_mod_cast h0), Int.floor_intCast]
  congr 1
  rw [Int.emod_eq_of_lt h0 h1]

theorem toUint8Q_intCast {m : ℤ} (h0 : 0 ≤ m) (h1 : m < 256) :
    toUint8Q (m : ℚ) = ⟨m.toNat, by omega⟩ := by
  unfold toUint8Q jsTruncQ byteOfInt
  rw [if_pos (by exact_mod_cast h0)]
  rw [show ⌊(m : ℚ)⌋ = m from Int.floor_intCast m]
  congr 1
  rw [Int.emod_eq_of_lt h0 h1]

theorem hermite_zero (y0 y1 dx M0 M1 : ℝ) : hermite 0 y0 y1 dx M0 M1 = y0 := by
  unfold hermite
  ring

theorem hermite_one (y0 y1 dx M0 M1 : ℝ) : hermite 1 y0 y1 dx M0 M1 = y1 := by
  unfold hermite
  ring

/-- Claim C6: for a non-empty point set (with the set semantics of the data
model: pairwise distinct x), both interpolators return exactly the minimum
point's y at any query at or below the minimum x, and exactly the maximum
point's y at any query at or above the maximum x. -/
theorem C6_boundary_flatness :
    ∀ pts : List CurvePoint, pts ≠ [] → DistinctX pts →
      (∀ x : ℚ, x ≤ (nth (sortPoints pts) 0).x →
        monotoneCubicInterpolation pts x = ((nth (sortPoints pts) 0).y : ℝ) ∧
        catmullRomInterpolation pts x = (nth (sortPoints pts) 0).y) ∧
      (∀ x : ℚ, (nth (sortPoints pts) ((sortPoints pts).length - 1)).x ≤ x →
        monotoneCubicInterpolation pts x =
          ((nth (sortPoints pts) ((sortPoints pts).length - 1)).y : ℝ) ∧
        catmullRomInterpolation pts x =
          (nth (sortPoints pts) ((sortPoints pts).length - 1)).y) := by
  intro pts hne hd
  have hn : (sortPoints pts).length ≠ 0 := by
    rw [sortPoints_length]
    have := List.length_pos.2 hne
    omega
  have hstrict : List.Pairwise (fun a b : CurvePoint => a.x < b.x) (sortPoints pts) :=
    strictX_of_sorted_distinct (sortPoints_sorted pts) (distinctX_sortPoints hd)
  refine ⟨fun x hx => ⟨mono_eq_left hn hx, catmull_eq_left hn hx⟩, fun x hx2 => ?_⟩
  by_cases hx : x ≤ (nth (sortPoints pts) 0).x
  · rcases Nat.lt_or_ge (sortPoints pts).length 2 with h1 | h1
    · have h0 : (sortPoints pts).length - 1 = 0 := by omega
      rw [h0]
      exact ⟨mono_eq_left hn hx, catmull_eq_left hn hx⟩
    · exfalso
      have := nth_lt_nth hstrict (show 0 < (sortPoints pts).length - 1 by omega)
        (by omega)
      linarith [le_trans hx2 hx]
  · exact ⟨mono_eq_right hn hx hx2, catmull_eq_right hn hx hx2⟩

/-- Witness for C6 at the concrete point set [(10, 30), (20, 40)]. -/
theorem C6_boundary_flatness_witness :
    (monotoneCubicInterpolation [⟨10, 30⟩, ⟨20, 40⟩] 5 =
      ((nth (sortPoints [⟨10, 30⟩, ⟨20, 40⟩]) 0).y : ℝ) ∧
      catmullRomInterpolation [⟨10, 30⟩, ⟨20, 40⟩] 5 =
        (nth (sortPoints [⟨10, 30⟩, ⟨20, 40⟩]) 0).y) ∧
    (monotoneCubicInterpolation [⟨10, 30⟩, ⟨20, 40⟩] 25 =
      ((nth (sortPoints [⟨10, 30⟩, ⟨20, 40⟩])
        ((sortPoints [⟨10, 30⟩, ⟨20, 40⟩]).length - 1)).y : ℝ) ∧
      catmullRomInterpolation [⟨10, 30⟩, ⟨20, 40⟩] 25 =
        (nth (sortPoints [⟨10, 30⟩, ⟨20, 40⟩])
          ((sortPoints [⟨10, 30⟩, ⟨20, 40⟩]).length - 1)).y) := by
  have h := C6_boundary_flatness [⟨10, 30⟩, ⟨20, 40⟩] (by simp)
    (by norm_num [DistinctX])
  refine ⟨h.1 5 ?_, h.2 25 ?_⟩
  · norm_num [sortPoints, List.insertionSort, List.orderedInsert, nth]
  · norm_num [sortPoints, List.insertionSort, List.orderedInsert, nth]

instance : IsAntisymm CurvePoint (fun a b : CurvePoint => a.x < b.x) :=
  ⟨fun _ _ h1 h2 => absurd h2 (lt_asymm h1)⟩

/-- Claim C10: on two point lists that are permutations of each other with
pairwise distinct x, both interpolators agree at every query x, because each
operates on the (unique) internally sorted copy of its input; the sorted
copies coincide and neither function touches its input list (the model is a
pure function of the input value, matching the source's copy-before-sort). -/
theorem C10_permutation_invariance :
    ∀ l1 l2 : List CurvePoint, l1.Perm l2 → DistinctX l1 →
      sortPoints l1 = sortPoints l2 ∧
      ∀ x : ℚ, monotoneCubicInterpolation l1 x = monotoneCubicInterpolation l2 x ∧
        catmullRomInterpolation l1 x = catmullRomInterpolation l2 x := by
  intro l1 l2 hperm hd1
  have hd2 : DistinctX l2 := (hperm.map fun p : CurvePoint => p.x).nodup_iff.1 hd1
  have hsorteq : sortPoints l1 = sortPoints l2 := by
    have h1 : List.Pairwise (fun a b : CurvePoint => a.x < b.x) (sortPoints l1) :=
      strictX_of_sorted_distinct (sortPoints_sorted l1) (distinctX_sortPoints hd1)
    have h2 : List.Pairwise (fun a b : CurvePoint => a.x < b.x) (sortPoints l2) :=
      strictX_of_sorted_distinct (sortPoints_sorted l2) (distinctX_sortPoints hd2)
    exact List.eq_of_perm_of_sorted
      (((sortPoints_perm l1).trans hperm).trans (sortPoints_perm l2).symm) h1 h2
  refine ⟨hsorteq, fun x => ⟨?_, ?_⟩⟩
  · unfold monotoneCubicInterpolation
    rw [hsorteq]
  · unfold catmullRomInterpolation
    rw [hsorteq]

/-- Witness for C10 at a concrete transposed pair of lists. -/
theorem C10_permutation_invariance_witness :
    sortPoints [(⟨0, 0⟩ : CurvePoint), ⟨255, 255⟩] = sortPoints [⟨255, 255⟩, ⟨0, 0⟩] ∧
    ∀ x : ℚ,
      monotoneCubicInterpolation [⟨0, 0⟩, ⟨255, 255⟩] x =
        monotoneCubicInterpolation [⟨255, 255⟩, ⟨0, 0⟩] x ∧
      catmullRomInterpolation [⟨0, 0⟩, ⟨255, 255⟩] x =
        catmullRomInterpolation [⟨255, 255⟩, ⟨0, 0⟩] x :=
  C10_permutation_invariance [⟨0, 0⟩, ⟨255, 255⟩] [⟨255, 255⟩, ⟨0, 0⟩]
    (List.Perm.swap _ _ _) (by norm_num [DistinctX])

theorem nth_of_get {l : List CurvePoint} {k : ℕ} (hk : k < l.length) :
    nth l k = l.get ⟨k, hk⟩ := by
  rw [nth, List.getD_eq_getElem _ _ hk, List.get_eq_getElem]

theorem catmull_blend_at_one (a b c d t : ℚ) (h : t = 1) :
    1 / 2 * (2 * b + (-a + c) * t + (2 * a - 5 * b + 4 * c - d) * t ^ 2
      + (-a + 3 * b - 3 * c + d) * t ^ 3) = c := by
  subst h
  ring

theorem findSegIdx_at_control {s : List CurvePoint}
    (hstrict : List.Pairwise (fun a b : CurvePoint => a.x < b.x) s) {k : ℕ}
    (hk : k < s.length) (hk0 : 0 < k) (hkn : k < s.length - 1) :
    findSegIdx s (nth s k).x = k - 1 := by
  have hsorted : SortedByX s := hstrict.imp le_of_lt
  have hx : ¬ (nth s k).x ≤ (nth s 0).x :=
    not_le.2 (nth_lt_nth hstrict hk0 hk)
  have hx2 : ¬ (nth s (s.length - 1)).x ≤ (nth s k).x :=
    not_le.2 (nth_lt_nth hstrict hkn (by omega))
  have hlow : (nth s (findSegIdx s (nth s k).x)).x < (nth s k).x := findSegIdx_lower hx
  have hlt : findSegIdx s (nth s k).x < s.length - 1 :=
    findSegIdx_pred_lt (by omega) hx2
  have hup : (nth s k).x ≤ (nth s (findSegIdx s (nth s k).x + 1)).x := findSegIdx_upper hlt
  have hik : findSegIdx s (nth s k).x < k := by
    by_contra hcon
    have hle : k ≤ findSegIdx s (nth s k).x := by omega
    have := nth_le_nth hsorted hle (by omega)
    linarith
  have hki : k ≤ findSegIdx s (nth s k).x + 1 := by
    by_contra hcon
    have hlt2 : findSegIdx s (nth s k).x + 1 < k := by omega
    have := nth_lt_nth hstrict hlt2 hk
    linarith
  omega

theorem controlPoint_exact {pts : List CurvePoint} (hd : DistinctX pts)
    (hv : ∀ p ∈ pts, ValidPt p) {p : CurvePoint} (hp : p ∈ pts) :
    monotoneCubicInterpolation pts p.x = (p.y : ℝ) ∧
    catmullRomInterpolation pts p.x = p.y := by
  have hstrict : List.Pairwise (fun a b : CurvePoint => a.x < b.x) (sortPoints pts) :=
    strictX_of_sorted_distinct (sortPoints_sorted pts) (distinctX_sortPoints hd)
  have hsorted : SortedByX (sortPoints pts) := sortPoints_sorted pts
  have hpmem : p ∈ sortPoints pts := mem_sortPoints.2 hp
  obtain ⟨⟨k, hk⟩, hget⟩ := List.mem_iff_get.1 hpmem
  have hnth : nth (sortPoints pts) k = p := by rw [nth_of_get hk, hget]
  have hn : (sortPoints pts).length ≠ 0 := by omega
  obtain ⟨m, hm⟩ := exists_int_of_den_one (hv p hp).2.1
  have hm0 : (0 : ℤ) ≤ m := by
    have := (hv p hp).2.2.2.2.1
    rw [hm] at this
    exact_mod_cast this
  have hm255 : m ≤ 255 := by
    have := (hv p hp).2.2.2.2.2
    rw [hm] at this
    exact_mod_cast this
  rcases Nat.eq_zero_or_pos k with hk0 | hk0
  · -- p is the sorted head
    subst hk0
    have hx : p.x ≤ (nth (sortPoints pts) 0).x := by rw [hnth]
    rw [mono_eq_left hn hx, catmull_eq_left hn hx, hnth]
    exact ⟨rfl, rfl⟩
  · rcases Nat.lt_or_ge k ((sortPoints pts).length - 1) with hkn | hkn
    · -- interior control point
      have hx : ¬ p.x ≤ (nth (sortPoints pts) 0).x := by
        rw [← hnth]
        exact not_le.2 (nth_lt_nth hstrict hk0 hk)
      have hx2 : ¬ (nth (sortPoints pts) ((sortPoints pts).length - 1)).x ≤ p.x := by
        rw [← hnth]
        exact not_le.2 (nth_lt_nth hstrict hkn (by omega))
      have hseg : findSegIdx (sortPoints pts) p.x = k - 1 := by
        rw [← hnth]
        exact findSegIdx_at_control hstrict hk hk0 hkn
      have hsucc : findSegIdx (sortPoints pts) p.x + 1 = k := by omega
      have hdx : (0 : ℚ) < (nth (sortPoints pts) (findSegIdx (sortPoints pts) p.x + 1)).x -
          (nth (sortPoints pts) (findSegIdx (sortPoints pts) p.x)).x := by
        rw [hsucc, hseg]
        have := nth_lt_nth hstrict (show k - 1 < k by omega) hk
        linarith
      constructor
      · rw [mono_eq_interior (by omega) hx hx2]
        unfold monoSegEval
        rw [if_neg (by rw [hsucc]; intro hcon; rw [hsucc] at hdx; linarith)]
        have ht : ((p.x - (nth (sortPoints pts) (findSegIdx (sortPoints pts) p.x)).x) /
            ((nth (sortPoints pts) (findSegIdx (sortPoints pts) p.x + 1)).x -
              (nth (sortPoints pts) (findSegIdx (sortPoints pts) p.x)).x) : ℚ) = 1 := by
          rw [hsucc, hnth]
          rw [hsucc] at hdx
          rw [hnth] at hdx
          field_simp
        rw [ht]
        push_cast
        rw [hermite_one, hsucc, hnth, hm]
        exact_mod_cast roundClampR_intCast hm0 hm255
      · rw [catmull_eq_interior (by omega) hx hx2]
        unfold catmullSegEval
        have hmin : min ((sortPoints pts).length - 1) (findSegIdx (sortPoints pts) p.x + 1) =
            findSegIdx (sortPoints pts) p.x + 1 := min_eq_right (by omega)
        rw [hmin]
        rw [if_neg (by rw [hsucc]; intro hcon; rw [hsucc] at hdx; linarith)]
        have ht : ((p.x - (nth (sortPoints pts) (findSegIdx (sortPoints pts) p.x)).x) /
            ((nth (sortPoints pts) (findSegIdx (sortPoints pts) p.x + 1)).x -
              (nth (sortPoints pts) (findSegIdx (sortPoints pts) p.x)).x) : ℚ) = 1 := by
          rw [hsucc, hnth]
          rw [hsucc] at hdx
          rw [hnth] at hdx
          field_simp
        dsimp only
        rw [catmull_blend_at_one _ _ _ _ _ ht, hsucc, hnth, hm]
        exact_mod_cast roundClampQ_intCast hm0 hm255
    · -- p is the sorted last point
      have hklast : k = (sortPoints pts).length - 1 := by omega
      have hx : ¬ p.x ≤ (nth (sortPoints pts) 0).x := by
        rw [← hnth]
        exact not_le.2 (nth_lt_nth hstrict hk0 hk)
      have hx2 : (nth (sortPoints pts) ((sortPoints pts).length - 1)).x ≤ p.x := by
        rw [← hklast, hnth]
      rw [mono_eq_right hn hx hx2, catmull_eq_right hn hx hx2, ← hklast, hnth]
      exact ⟨rfl, rfl⟩

/-- Claim C7: every interpolator passes exactly through each control point of
a point set with distinct x and integer coordinates in [0, 255]; and the
concrete scenario: `addPoint('red', (128, 200))` on the default `ChannelSet`
stores red = [(0,0), (128,200), (255,255)], whose monotone LUT maps 128 to
exactly 200. -/
theorem C7_control_point_exact :
    (∀ pts : List CurvePoint, DistinctX pts → (∀ p ∈ pts, ValidPt p) →
      ∀ p ∈ pts, monotoneCubicInterpolation pts p.x = (p.y : ℝ) ∧
        catmullRomInterpolation pts p.x = p.y) ∧
    (sessionAddPoint getDefaultChannelPoints Channel.red ⟨128, 200⟩).red =
      [⟨0, 0⟩, ⟨128, 200⟩, ⟨255, 255⟩] ∧
    generateChannelLUT [⟨0, 0⟩, ⟨128, 200⟩, ⟨255, 255⟩] InterpKind.monotone
      ⟨128, by norm_num⟩ = ⟨200, by norm_num⟩ := by
  refine ⟨fun pts hd hv p hp => controlPoint_exact hd hv hp, ?_, ?_⟩
  · norm_num [sessionAddPoint, ChannelPoints.setChannel, ChannelPoints.get,
      getDefaultChannelPoints, addPoint, addPointResult, addPointCheck, sortPoints,
      getDefaultPoints, List.insertionSort, List.orderedInsert, MIN_POINT_DISTANCE]
  · show toUint8R (monotoneCubicInterpolation [⟨0, 0⟩, ⟨128, 200⟩, ⟨255, 255⟩]
      ((128 : ℕ) : ℚ)) = ⟨200, by norm_num⟩
    have hmono := (@controlPoint_exact [⟨0, 0⟩, ⟨128, 200⟩, ⟨255, 255⟩]
      (by norm_num [DistinctX])
      (by
        intro p hp
        simp only [List.mem_cons, List.not_mem_nil, or_false] at hp
        rcases hp with h | h | h <;> subst h <;>
          exact ⟨by norm_num, by norm_num, by norm_num, by norm_num, by norm_num, by norm_num⟩)
      ⟨128, 200⟩ (by simp)).1
    rw [show ((128 : ℕ) : ℚ) = (⟨128, 200⟩ : CurvePoint).x by norm_num]
    rw [hmono]
    rw [show (((⟨128, 200⟩ : CurvePoint).y : ℚ) : ℝ) = ((200 : ℤ) : ℝ) by norm_num]
    rw [toUint8R_intCast (by norm_num) (by norm_num)]
    rfl

/-- Witness for C7 at the stored red point set and its middle control
point. -/
theorem C7_control_point_exact_witness :
    monotoneCubicInterpolation [⟨0, 0⟩, ⟨128, 200⟩, ⟨255, 255⟩]
      (⟨128, 200⟩ : CurvePoint).x = ((⟨128, 200⟩ : CurvePoint).y : ℝ) ∧
    catmullRomInterpolation [⟨0, 0⟩, ⟨128, 200⟩, ⟨255, 255⟩]
      (⟨128, 200⟩ : CurvePoint).x = (⟨128, 200⟩ : CurvePoint).y :=
  C7_control_point_exact.1 [⟨0, 0⟩, ⟨128, 200⟩, ⟨255, 255⟩]
    (by norm_num [DistinctX])
    (by
      intro p hp
      simp only [List.mem_cons, List.not_mem_nil, or_false] at hp
      rcases hp with h | h | h <;> subst h <;>
        exact ⟨by norm_num, by norm_num, by norm_num, by norm_num, by norm_num, by norm_num⟩)
    ⟨128, 200⟩ (by simp)

theorem mono_default_identity {k : ℕ} (hk : k ≤ 255) :
    monotoneCubicInterpolation getDefaultPoints (k : ℚ) = (k : ℝ) := by
  have hs : sortPoints getDefaultPoints = getDefaultPoints := by
    norm_num [sortPoints, getDefaultPoints, List.insertionSort, List.orderedInsert]
  have hlen : (sortPoints getDefaultPoints).length = 2 := by rw [hs]; rfl
  have hnth0 : nth (sortPoints getDefaultPoints) 0 = ⟨0, 0⟩ := by rw [hs]; rfl
  have h1 : (sortPoints getDefaultPoints).length - 1 = 1 := by omega
  have hnth1 : nth (sortPoints getDefaultPoints) 1 = ⟨255, 255⟩ := by rw [hs]; rfl
  by_cases hk0 : k = 0
  · subst hk0
    have hx : ((0 : ℕ) : ℚ) ≤ (nth (sortPoints getDefaultPoints) 0).x := by
      rw [hnth0]
      norm_num
    rw [mono_eq_left (by omega) hx, hnth0]
    norm_num
  · by_cases hk255 : k = 255
    · subst hk255
      have hx : ¬ ((255 : ℕ) : ℚ) ≤ (nth (sortPoints getDefaultPoints) 0).x := by
        rw [hnth0]
        norm_num
      have hx2 : (nth (sortPoints getDefaultPoints)
          ((sortPoints getDefaultPoints).length - 1)).x ≤ ((255 : ℕ) : ℚ) := by
        rw [h1, hnth1]
        norm_num
      rw [mono_eq_right (by omega) hx hx2, h1, hnth1]
      norm_num
    · have hx : ¬ (k : ℚ) ≤ (nth (sortPoints getDefaultPoints) 0).x := by
        rw [hnth0]
        simp only [not_le]
        exact_mod_cast Nat.pos_of_ne_zero hk0
      have hx2 : ¬ (nth (sortPoints getDefaultPoints)
          ((sortPoints getDefaultPoints).length - 1)).x ≤ (k : ℚ) := by
        rw [h1, hnth1]
        simp only [not_le]
        exact_mod_cast (by omega : k < 255)
      rw [mono_eq_interior (by omega) hx hx2]
      have hseg : findSegIdx (sortPoints getDefaultPoints) (k : ℚ) = 0 := by
        rw [hs]
        have hnot : ¬ ((255 : ℚ) < (k : ℚ)) := not_lt.2 (by exact_mod_cast hk)
        simp [findSegIdx, getDefaultPoints, List.takeWhile_cons, hnot]
      rw [hseg, hs]
      show monoSegEval getDefaultPoints 2 0 (k : ℚ) = (k : ℝ)
      unfold monoSegEval
      rw [show nth getDefaultPoints 0 = ⟨0, 0⟩ from rfl,
        show nth getDefaultPoints (0 + 1) = ⟨255, 255⟩ from rfl]
      dsimp only
      rw [if_neg (by norm_num)]
      have hm0 : monoM0 getDefaultPoints 0 (255 - 0) (255 - 0) = 1 := by
        norm_num [monoM0]
      have hm1 : monoM1 getDefaultPoints 0 2 (255 - 0) (255 - 0) = 1 := by
        norm_num [monoM1]
      rw [hm0, hm1]
      have hlim : limitTangents 1 1 ((255 - 0) / (255 - 0)) = (1, 1) := by
        norm_num [limitTangents]
      rw [hlim]
      have hherm : hermite ((((k : ℚ) - 0) / (255 - 0) : ℚ) : ℝ) ((0 : ℚ) : ℝ)
          ((255 : ℚ) : ℝ) ((255 - 0 : ℚ) : ℝ) (1, 1).1 (1, 1).2 = ((k : ℤ) : ℝ) := by
        unfold hermite
        push_cast
        field_simp
        ring
      rw [hherm, jsRoundR_intCast, clampI_of_mem (by omega) (by exact_mod_cast hk)]
      push_cast
      ring

/-- Claim C1, amended: the default two-point diagonal yields the identity
LUT under the 'monotone' interpolation; under 'catmullRom' it does not
(see the counterexample at i = 64). -/
theorem C1_default_identity_monotone :
    ∀ i : Fin 256, generateChannelLUT getDefaultPoints InterpKind.monotone i = i := by
  intro i
  show toUint8R (monotoneCubicInterpolation getDefaultPoints ((i.val : ℕ) : ℚ)) = i
  rw [mono_default_identity (by omega : i.val ≤ 255)]
  rw [show ((i.val : ℕ) : ℝ) = ((i.val : ℤ) : ℝ) by push_cast; ring]
  rw [toUint8R_intCast (by omega) (by exact_mod_cast i.isLt)]
  apply Fin.ext
  simp

/-- Counterexample to claim C1: under 'catmullRom' the default diagonal's
LUT maps 64 to 52, not 64 — the claim fails for the Catmull-Rom kind. -/
theorem C1_cex_catmullRom_sags :
    generateChannelLUT getDefaultPoints InterpKind.catmullRom ⟨64, by norm_num⟩ =
      ⟨52, by norm_num⟩ ∧
    generateChannelLUT getDefaultPoints InterpKind.catmullRom ⟨64, by norm_num⟩ ≠
      ⟨64, by norm_num⟩ := by
  have h : generateChannelLUT getDefaultPoints InterpKind.catmullRom ⟨64, by norm_num⟩ =
      ⟨52, by norm_num⟩ := by
    show toUint8Q (catmullRomInterpolation getDefaultPoints ((64 : ℕ) : ℚ)) = _
    have hc : catmullRomInterpolation getDefaultPoints ((64 : ℕ) : ℚ) = 52 := by
      norm_num [catmullRomInterpolation, sortPoints, getDefaultPoints, List.insertionSort,
        List.orderedInsert, nth, findSegIdx, List.takeWhile, jsRoundQ, clampI,
        catmullSegEval]
    rw [hc, show (52 : ℚ) = ((52 : ℤ) : ℚ) by norm_num,
      toUint8Q_intCast (by norm_num) (by norm_num)]
    rfl
  refine ⟨h, ?_⟩
  rw [h]
  intro hcon
  have := Fin.val_eq_val _ _ |>.2 hcon
  simp at this

theorem minGap_iff_nth {l : List CurvePoint} :
    MinGap l ↔ ∀ j, j + 1 < l.length →
      (nth l j).x + MIN_POINT_DISTANCE ≤ (nth l (j + 1)).x := by
  rw [MinGap, List.chain'_iff_get]
  constructor
  · intro h j hj
    have := h j (by omega)
    rw [nth_of_get (by omega : j < l.length), nth_of_get hj]
    exact this
  · intro h j hj
    have := h j (by omega)
    rw [nth_of_get (by omega : j < l.length), nth_of_get (by omega : j + 1 < l.length)] at this
    exact this

theorem mem_nth {l : List CurvePoint} {q : CurvePoint} (hq : q ∈ l) :
    ∃ j, j < l.length ∧ nth l j = q := by
  obtain ⟨⟨j, hj⟩, hget⟩ := List.mem_iff_get.1 hq
  exact ⟨j, hj, by rw [nth_of_get hj, hget]⟩

theorem sorted_head_min {l : List CurvePoint} (hs : SortedByX l) {q : CurvePoint}
    (hq : q ∈ l) : (nth l 0).x ≤ q.x := by
  obtain ⟨j, hj, hnth⟩ := mem_nth hq
  rw [← hnth]
  exact nth_le_nth hs (Nat.zero_le j) hj

theorem sorted_last_max {l : List CurvePoint} (hs : SortedByX l) {q : CurvePoint}
    (hq : q ∈ l) : q.x ≤ (nth l (l.length - 1)).x := by
  obtain ⟨j, hj, hnth⟩ := mem_nth hq
  rw [← hnth]
  exact nth_le_nth hs (by omega) (by omega)

theorem goodState_x_range {pts : List CurvePoint} (hg : GoodState pts) :
    ∀ q ∈ pts, 0 ≤ q.x ∧ q.x ≤ 255 := by
  intro q hq
  have hs : SortedByX pts := minGap_sortedByX hg.2.1
  constructor
  · have := sorted_head_min hs hq
    rw [hg.2.2.1] at this
    exact this
  · have := sorted_last_max hs hq
    rw [hg.2.2.2] at this
    exact this

theorem far_gap_left {a p : CurvePoint} (hfar : MIN_POINT_DISTANCE ≤ |a.x - p.x|)
    (h : p.x ≤ a.x) : p.x + MIN_POINT_DISTANCE ≤ a.x := by
  rcases abs_cases (a.x - p.x) with ⟨h1, _⟩ | ⟨h1, h2⟩ <;> linarith

theorem far_gap_right {a p : CurvePoint} (hfar : MIN_POINT_DISTANCE ≤ |a.x - p.x|)
    (h : ¬ p.x ≤ a.x) : a.x + MIN_POINT_DISTANCE ≤ p.x := by
  rcases abs_cases (a.x - p.x) with ⟨h1, h2⟩ | ⟨h1, _⟩ <;> linarith

theorem orderedInsert_minGap {p : CurvePoint} :
    ∀ {l : List CurvePoint}, MinGap l →
      (∀ q ∈ l, MIN_POINT_DISTANCE ≤ |q.x - p.x|) →
      MinGap (List.orderedInsert (fun a b : CurvePoint => a.x ≤ b.x) p l) := by
  intro l
  induction l with
  | nil =>
    intro _ _
    simp [List.orderedInsert, MinGap]
  | cons a l ih =>
    intro hg hfar
    rw [List.orderedInsert]
    by_cases hpa : p.x ≤ a.x
    · rw [if_pos hpa]
      exact List.chain'_cons.2 ⟨far_gap_left (hfar a (by simp)) hpa, hg⟩
    · rw [if_neg hpa]
      cases l with
      | nil =>
        simp only [List.orderedInsert]
        exact List.chain'_cons.2 ⟨far_gap_right (hfar a (by simp)) hpa, List.chain'_singleton _⟩
      | cons b l2 =>
        rw [List.orderedInsert]
        by_cases hpb : p.x ≤ b.x
        · rw [if_pos hpb]
          refine List.chain'_cons.2 ⟨far_gap_right (hfar a (by simp)) hpa, ?_⟩
          refine List.chain'_cons.2 ⟨far_gap_left (hfar b (by simp)) hpb, ?_⟩
          exact (List.chain'_cons.1 hg).2
        · rw [if_neg hpb]
          have hrec := ih (List.chain'_cons.1 hg).2
            (fun q hq => hfar q (by simp [hq]))
          rw [List.orderedInsert, if_neg hpb] at hrec
          exact List.chain'_cons.2 ⟨(List.chain'_cons.1 hg).1, hrec⟩

theorem distinctX_append_far {pts : List CurvePoint} {p : CurvePoint}
    (hstrict : List.Pairwise (fun a b : CurvePoint => a.x < b.x) pts)
    (hfar : ∀ q ∈ pts, MIN_POINT_DISTANCE ≤ |q.x - p.x|) :
    DistinctX (pts ++ [p]) := by
  rw [DistinctX, List.map_append, List.nodup_append]
  refine ⟨List.pairwise_map.2 (hstrict.imp fun h => ne_of_lt h), by simp, ?_⟩
  intro b hb hcon
  simp only [List.map_cons, List.map_nil, List.mem_cons, List.not_mem_nil, or_false] at hcon
  obtain ⟨q, hq, hqb⟩ := List.mem_map.1 hb
  have hq_eq : q.x = p.x := by rw [hqb, hcon]
  have hfq := hfar q hq
  rw [hq_eq] at hfq
  norm_num [MIN_POINT_DISTANCE] at hfq

theorem addPoint_goodState {pts : List CurvePoint} {p : CurvePoint} (hg : GoodState pts)
    (hp0 : 0 ≤ p.x) (hp255 : p.x ≤ 255) : GoodState (addPoint pts p) := by
  unfold addPoint addPointResult
  by_cases hc : addPointCheck pts p = true
  · rw [if_pos hc]
    exact hg
  · rw [if_neg hc]
    show GoodState (sortPoints (pts ++ [p]))
    have hfar : ∀ q ∈ pts, MIN_POINT_DISTANCE ≤ |q.x - p.x| := by
      intro q hq
      by_contra hcon
      exact hc (addPointCheck_iff.2 ⟨q, hq, by linarith [not_le.1 hcon]⟩)
    have hsorted : SortedByX pts := minGap_sortedByX hg.2.1
    have hstrict := minGap_strictX hg.2.1
    have hdist : DistinctX (pts ++ [p]) := distinctX_append_far hstrict hfar
    have hOIgap : MinGap (List.orderedInsert (fun a b : CurvePoint => a.x ≤ b.x) p pts) :=
      orderedInsert_minGap hg.2.1 hfar
    have hperm : (sortPoints (pts ++ [p])).Perm
        (List.orderedInsert (fun a b : CurvePoint => a.x ≤ b.x) p pts) :=
      ((sortPoints_perm _).trans (List.perm_append_singleton p pts)).trans
        (List.perm_orderedInsert _ p pts).symm
    have heq : sortPoints (pts ++ [p]) =
        List.orderedInsert (fun a b : CurvePoint => a.x ≤ b.x) p pts :=
      List.eq_of_perm_of_sorted hperm
        (strictX_of_sorted_distinct (sortPoints_sorted _) (distinctX_sortPoints hdist))
        (minGap_strictX hOIgap)
    have hlen : (sortPoints (pts ++ [p])).length = pts.length + 1 := by
      rw [sortPoints_length, List.length_append, List.length_cons, List.length_nil]
    have hmemx : ∀ q ∈ sortPoints (pts ++ [p]), 0 ≤ q.x ∧ q.x ≤ 255 := by
      intro q hq
      rcases List.mem_append.1 (mem_sortPoints.1 hq) with h | h
      · exact goodState_x_range hg q h
      · simp only [List.mem_cons, List.not_mem_nil, or_false] at h
        subst h
        exact ⟨hp0, hp255⟩
    have hself : ∀ j, j < (sortPoints (pts ++ [p])).length →
        nth (sortPoints (pts ++ [p])) j ∈ sortPoints (pts ++ [p]) := fun j hj => nth_mem hj
    have hssorted : SortedByX (sortPoints (pts ++ [p])) := sortPoints_sorted _
    have hg1 : 2 ≤ pts.length := hg.1
    refine ⟨by omega, by rw [heq]; exact hOIgap, ?_, ?_⟩
    · have hold : nth pts 0 ∈ sortPoints (pts ++ [p]) :=
        mem_sortPoints.2 (List.mem_append.2 (Or.inl (nth_mem (by omega))))
      have h1 : (nth (sortPoints (pts ++ [p])) 0).x ≤ (nth pts 0).x :=
        sorted_head_min hssorted hold
      have h2 : 0 ≤ (nth (sortPoints (pts ++ [p])) 0).x :=
        (hmemx _ (hself 0 (by omega))).1
      rw [hg.2.2.1] at h1
      linarith
    · have hold : nth pts (pts.length - 1) ∈ sortPoints (pts ++ [p]) :=
        mem_sortPoints.2 (List.mem_append.2 (Or.inl (nth_mem (by omega))))
      have h1 : (nth pts (pts.length - 1)).x ≤
          (nth (sortPoints (pts ++ [p])) ((sortPoints (pts ++ [p])).length - 1)).x :=
        sorted_last_max hssorted hold
      have h2 : (nth (sortPoints (pts ++ [p])) ((sortPoints (pts ++ [p])).length - 1)).x ≤ 255 :=
        (hmemx _ (hself _ (by omega))).2
      rw [hg.2.2.2] at h1
      linarith

theorem nth_set_self {l : List CurvePoint} {i : ℕ} {q : CurvePoint} (hi : i < l.length) :
    nth (l.set i q) i = q := by
  have hi2 : i < (l.set i q).length := by rw [List.length_set]; exact hi
  rw [nth, List.getD_eq_getElem _ _ hi2, List.getElem_set, if_pos rfl]

theorem nth_set_other {l : List CurvePoint} {i j : ℕ} {q : CurvePoint} (hij : i ≠ j) :
    nth (l.set i q) j = nth l j := by
  by_cases hj : j < l.length
  · have hj2 : j < (l.set i q).length := by rw [List.length_set]; exact hj
    rw [nth, List.getD_eq_getElem _ _ hj2, List.getElem_set, if_neg hij, nth,
      List.getD_eq_getElem _ _ hj]
  · rw [nth, nth, List.getD_eq_default _ _ (by rw [List.length_set]; omega),
      List.getD_eq_default _ _ (by omega)]

theorem set_x_keep_goodState {pts : List CurvePoint} {i : ℕ} {q : CurvePoint}
    (hg : GoodState pts) (hi : i < pts.length) (hx : q.x = (nth pts i).x) :
    GoodState (pts.set i q) := by
  have hxall : ∀ j, (nth (pts.set i q) j).x = (nth pts j).x := by
    intro j
    by_cases hij : i = j
    · subst hij
      rw [nth_set_self hi, hx]
    · rw [nth_set_other hij]
  have hlen : (pts.set i q).length = pts.length := List.length_set _ _ _
  have hg1 : 2 ≤ pts.length := hg.1
  refine ⟨by omega, ?_, ?_, ?_⟩
  · rw [minGap_iff_nth]
    intro j hj
    rw [hxall, hxall]
    exact (minGap_iff_nth.1 hg.2.1) j (by omega)
  · rw [hxall]
    exact hg.2.2.1
  · rw [hlen, hxall]
    exact hg.2.2.2

theorem set_x_interior_goodState {pts : List CurvePoint} {i : ℕ} {q : CurvePoint}
    (hg : GoodState pts) (hi1 : 1 ≤ i) (hi2 : i + 1 < pts.length)
    (hlo : (nth pts (i - 1)).x + MIN_POINT_DISTANCE ≤ q.x)
    (hhi : q.x ≤ (nth pts (i + 1)).x - MIN_POINT_DISTANCE) :
    GoodState (pts.set i q) := by
  have hlen : (pts.set i q).length = pts.length := List.length_set _ _ _
  have hg1 : 2 ≤ pts.length := hg.1
  refine ⟨by omega, ?_, ?_, ?_⟩
  · rw [minGap_iff_nth]
    intro j hj
    rw [hlen] at hj
    rcases Nat.lt_trichotomy (j + 1) i with h | h | h
    · rw [nth_set_other (by omega), nth_set_other (by omega)]
      exact (minGap_iff_nth.1 hg.2.1) j (by omega)
    · have hji : j = i - 1 := by omega
      rw [nth_set_other (by omega), h, nth_set_self (by omega), hji]
      linarith
    · rcases Nat.eq_or_lt_of_le h with h2 | h2
      · have hji : j = i := by omega
        rw [hji, nth_set_self (by omega), nth_set_other (by omega)]
        linarith
      · rw [nth_set_other (by omega), nth_set_other (by omega)]
        exact (minGap_iff_nth.1 hg.2.1) j (by omega)
  · rw [nth_set_other (by omega)]
    exact hg.2.2.1
  · rw [hlen, nth_set_other (by omega)]
    exact hg.2.2.2

theorem updatePoint_goodState {pts : List CurvePoint} {i : ℕ} {p : CurvePoint}
    (hg : GoodState pts) : GoodState (updatePoint pts i p) := by
  unfold updatePoint
  have hsp : sortPoints pts = pts := sortPoints_eq_self (minGap_sortedByX hg.2.1)
  rw [hsp]
  by_cases hguard : pts.length ≤ i
  · rw [if_pos hguard]
    exact hg
  · rw [if_neg hguard]
    by_cases hi0 : i = 0
    · rw [if_pos hi0]
      dsimp only
      refine set_x_keep_goodState hg (by omega) ?_
      subst hi0
      rw [hg.2.2.1]
    · rw [if_neg hi0]
      by_cases hilast : i = pts.length - 1
      · rw [if_pos hilast]
        dsimp only
        refine set_x_keep_goodState hg (by omega) ?_
        rw [hilast, hg.2.2.2]
      · rw [if_neg hilast]
        dsimp only
        have hgap1 : (nth pts (i - 1)).x + MIN_POINT_DISTANCE ≤ (nth pts i).x := by
          have := (minGap_iff_nth.1 hg.2.1) (i - 1) (by omega)
          have hrw : i - 1 + 1 = i := by omega
          rw [hrw] at this
          exact this
        have hgap2 : (nth pts i).x + MIN_POINT_DISTANCE ≤ (nth pts (i + 1)).x :=
          (minGap_iff_nth.1 hg.2.1) i (by omega)
        refine set_x_interior_goodState hg (by omega) (by omega) ?_ ?_
        · show (nth pts (i - 1)).x + MIN_POINT_DISTANCE ≤
            clamp p.x ((nth pts (i - 1)).x + MIN_POINT_DISTANCE)
              ((nth pts (i + 1)).x - MIN_POINT_DISTANCE)
          unfold clamp
          exact le_min (le_max_right _ _) (by linarith)
        · show clamp p.x ((nth pts (i - 1)).x + MIN_POINT_DISTANCE)
            ((nth pts (i + 1)).x - MIN_POINT_DISTANCE) ≤
              (nth pts (i + 1)).x - MIN_POINT_DISTANCE
          unfold clamp
          exact min_le_right _ _

theorem removePoint_goodState {pts : List CurvePoint} {i : ℕ} (hg : GoodState pts) :
    GoodState (removePoint pts i) := by
  unfold removePoint
  by_cases h2 : pts.length ≤ 2
  · rw [if_pos h2]
    exact hg
  · rw [if_neg h2]
    have hsp : sortPoints pts = pts := sortPoints_eq_self (minGap_sortedByX hg.2.1)
    by_cases h3 : i = 0 ∨ i = (sortPoints pts).length - 1
    · rw [if_pos h3]
      exact hg
    · rw [if_neg h3]
      rw [hsp]
      push_neg at h3
      rw [sortPoints_length] at h3
      by_cases h4 : i < pts.length
      · have hg1 : 2 ≤ pts.length := hg.1
        have hlen2 : (pts.eraseIdx i).length = pts.length - 1 := by
          rw [List.length_eraseIdx, if_pos h4]
        have hkey : ∀ j, j < (pts.eraseIdx i).length →
            nth (pts.eraseIdx i) j = nth pts (if j < i then j else j + 1) := by
          intro j hj
          by_cases hji : j < i
          · have hb : j < pts.length := by omega
            rw [nth, List.getD_eq_getElem _ _ hj, List.getElem_eraseIdx, dif_pos hji,
              if_pos hji, nth, List.getD_eq_getElem _ _ hb]
          · have hb : j + 1 < pts.length := by omega
            rw [nth, List.getD_eq_getElem _ _ hj, List.getElem_eraseIdx, dif_neg hji,
              if_neg hji, nth, List.getD_eq_getElem _ _ hb]
        have hM := minGap_iff_nth.1 hg.2.1
        have hsorted : SortedByX pts := minGap_sortedByX hg.2.1
        refine ⟨by omega, ?_, ?_, ?_⟩
        · rw [minGap_iff_nth]
          intro j hj
          rw [hkey j (by omega), hkey (j + 1) (by omega)]
          by_cases hji : j + 1 < i
          · rw [if_pos (by omega), if_pos (by omega)]
            exact hM j (by omega)
          · by_cases hji2 : j + 1 = i
            · rw [if_pos (by omega), if_neg (by omega)]
              have hA := hM j (by omega)
              have hB : (nth pts (j + 1)).x ≤ (nth pts (j + 1 + 1)).x :=
                nth_le_nth hsorted (by omega) (by omega)
              linarith
            · rw [if_neg (by omega), if_neg (by omega)]
              exact hM (j + 1) (by omega)
        · rw [hkey 0 (by omega), if_pos (by omega)]
          exact hg.2.2.1
        · rw [hlen2, hkey (pts.length - 1 - 1) (by omega), if_neg (by omega)]
          have hrw : pts.length - 1 - 1 + 1 = pts.length - 1 := by omega
          rw [hrw]
          exact hg.2.2.2
      · rw [List.eraseIdx_of_length_le (by omega)]
        exact hg

theorem goodState_default : GoodState getDefaultPoints := by
  refine ⟨by norm_num [getDefaultPoints], ?_, by norm_num [nth, getDefaultPoints],
    by norm_num [nth, getDefaultPoints]⟩
  rw [MinGap, getDefaultPoints]
  refine List.chain'_cons.2 ⟨?_, List.chain'_singleton _⟩
  norm_num [MIN_POINT_DISTANCE]

theorem applyOps_goodState :
    ∀ (ops : List CurveOp) (pts : List CurvePoint), GoodState pts →
      (∀ p : CurvePoint, CurveOp.add p ∈ ops → 0 ≤ p.x ∧ p.x ≤ 255) →
      GoodState (applyOps pts ops) := by
  intro ops
  induction ops with
  | nil =>
    intro pts hg _
    exact hg
  | cons op ops ih =>
    intro pts hg hops
    show GoodState (applyOps (applyOp pts op) ops)
    refine ih (applyOp pts op) ?_ (fun p hp => hops p (by simp [hp]))
    cases op with
    | add p => exact addPoint_goodState hg (hops p (by simp)).1 (hops p (by simp)).2
    | remove i => exact removePoint_goodState hg
    | update i p => exact updatePoint_goodState hg

/-- Claim C3, amended: starting from the default diagonal, the stored point
set stays sorted by ascending x with at least 2 points and adjacent gaps of
at least `MIN_POINT_DISTANCE` after any sequence of addPoint / removePoint /
updatePoint calls, provided every added point has x within [0, 255];
without that restriction the invariant is violated (see the
counterexample). -/
theorem C3_amended_invariants :
    ∀ ops : List CurveOp,
      (∀ p : CurvePoint, CurveOp.add p ∈ ops → 0 ≤ p.x ∧ p.x ≤ 255) →
      SortedByX (applyOps getDefaultPoints ops) ∧
      2 ≤ (applyOps getDefaultPoints ops).length ∧
      MinGap (applyOps getDefaultPoints ops) := by
  intro ops hops
  have hg := applyOps_goodState ops getDefaultPoints goodState_default hops
  exact ⟨minGap_sortedByX hg.2.1, hg.1, hg.2.1⟩

/-- Witness for C3 (amended): one concrete in-range insertion. -/
theorem C3_amended_invariants_witness :
    SortedByX (applyOps getDefaultPoints [CurveOp.add ⟨128, 200⟩]) ∧
    2 ≤ (applyOps getDefaultPoints [CurveOp.add ⟨128, 200⟩]).length ∧
    MinGap (applyOps getDefaultPoints [CurveOp.add ⟨128, 200⟩]) :=
  C3_amended_invariants [CurveOp.add ⟨128, 200⟩] (by
    intro p hp
    simp only [List.mem_cons, List.not_mem_nil, or_false, CurveOp.add.injEq] at hp
    subst hp
    norm_num)

/-- Counterexample to claim C3: adding the out-of-range point (300, 100)
and then dragging the last sorted point (whose x gets forced to 255) yields
a stored set with two points at x = 255, violating the
`MIN_POINT_DISTANCE` spacing invariant. -/
theorem C3_cex_update_endpoint_collision :
    applyOps getDefaultPoints [CurveOp.add ⟨300, 100⟩, CurveOp.update 2 ⟨0, 0⟩] =
      [⟨0, 0⟩, ⟨255, 255⟩, ⟨255, 0⟩] ∧
    ¬ MinGap [(⟨0, 0⟩ : CurvePoint), ⟨255, 255⟩, ⟨255, 0⟩] := by
  constructor
  · show applyOp (applyOp getDefaultPoints (CurveOp.add ⟨300, 100⟩))
      (CurveOp.update 2 ⟨0, 0⟩) = _
    have h1 : applyOp getDefaultPoints (CurveOp.add ⟨300, 100⟩) =
        [⟨0, 0⟩, ⟨255, 255⟩, ⟨300, 100⟩] := by
      show addPoint getDefaultPoints ⟨300, 100⟩ = _
      norm_num [addPoint, addPointResult, addPointCheck, sortPoints, getDefaultPoints,
        List.insertionSort, List.orderedInsert, MIN_POINT_DISTANCE]
    rw [h1]
    show updatePoint [⟨0, 0⟩, ⟨255, 255⟩, ⟨300, 100⟩] 2 ⟨0, 0⟩ = _
    norm_num [updatePoint, sortPoints, List.insertionSort, List.orderedInsert, nth, clamp,
      MIN_POINT_DISTANCE, List.set]
  · intro hcon
    have := minGap_iff_nth.1 hcon 1 (by norm_num)
    norm_num [nth, MIN_POINT_DISTANCE] at this

theorem le_of_sq_le_sq {a b : ℝ} (h : a ^ 2 ≤ b ^ 2) (hb : 0 ≤ b) : a ≤ b := by
  nlinarith [sq_nonneg (a - b), sq_nonneg (a + b)]

theorem phi_nonneg (s m0 m1 t : ℝ) (hs : 0 ≤ s) (h0 : 0 ≤ m0) (h1 : 0 ≤ m1)
    (hsq : m0 ^ 2 + m1 ^ 2 ≤ 9 * s ^ 2) (ht0 : 0 ≤ t) (ht1 : t ≤ 1) :
    0 ≤ 6 * s * t - 6 * s * t ^ 2 + m0 * (3 * t ^ 2 - 4 * t + 1)
      + m1 * (3 * t ^ 2 - 2 * t) := by
  have h3s0 : m0 ≤ 3 * s := by nlinarith [sq_nonneg m1]
  have h3s1 : m1 ≤ 3 * s := by nlinarith [sq_nonneg m0]
  rcases le_or_lt t (1 / 3) with hA | hA
  · have hc0 : 0 ≤ 3 * t ^ 2 - 4 * t + 1 := by nlinarith
    have hc1 : 3 * t ^ 2 - 2 * t ≤ 0 := by nlinarith
    nlinarith [mul_nonneg h0 hc0, mul_nonneg (sub_nonneg.2 h3s1) (neg_nonneg.2 hc1),
      mul_nonneg hs (sq_nonneg t)]
  · rcases le_or_lt (2 / 3) t with hB | hB
    · have hc1 : 0 ≤ 3 * t ^ 2 - 2 * t := by nlinarith
      have hc0 : 3 * t ^ 2 - 4 * t + 1 ≤ 0 := by nlinarith
      nlinarith [mul_nonneg h1 hc1, mul_nonneg (sub_nonneg.2 h3s0) (neg_nonneg.2 hc0),
        mul_nonneg hs (sq_nonneg (t - 1))]
    · have ht13 : (0 : ℝ) ≤ 3 * t - 1 := by linarith
      have ht23 : (0 : ℝ) ≤ 2 - 3 * t := by linarith
      have ht1m : (0 : ℝ) ≤ 1 - t := by linarith
      have hX : 0 ≤ (3 * t - 1) * (1 - t) := mul_nonneg ht13 ht1m
      have hY : 0 ≤ t * (2 - 3 * t) := mul_nonneg ht0 ht23
      have hP : 0 ≤ (2 - 3 * t) * ((3 * t - 1) * (7 * (3 / 2 - 3 * t) ^ 2 + 25 / 4)) :=
        mul_nonneg ht23 (mul_nonneg ht13 (by positivity))
      have hD : ((3 * t - 1) * (1 - t)) ^ 2 + (t * (2 - 3 * t)) ^ 2 ≤
          4 * t ^ 2 * (1 - t) ^ 2 := by nlinarith [hP]
      have hCS : (m0 * ((3 * t - 1) * (1 - t)) + m1 * (t * (2 - 3 * t))) ^ 2 ≤
          (m0 ^ 2 + m1 ^ 2) * (((3 * t - 1) * (1 - t)) ^ 2 + (t * (2 - 3 * t)) ^ 2) := by
        nlinarith [sq_nonneg (m0 * (t * (2 - 3 * t)) - m1 * ((3 * t - 1) * (1 - t)))]
      have hXY : (0 : ℝ) ≤ ((3 * t - 1) * (1 - t)) ^ 2 + (t * (2 - 3 * t)) ^ 2 := by
        positivity
      have h92 : (m0 ^ 2 + m1 ^ 2) * (((3 * t - 1) * (1 - t)) ^ 2 + (t * (2 - 3 * t)) ^ 2) ≤
          9 * s ^ 2 * (((3 * t - 1) * (1 - t)) ^ 2 + (t * (2 - 3 * t)) ^ 2) :=
        mul_le_mul_of_nonneg_right hsq hXY
      have h93 : 9 * s ^ 2 * (((3 * t - 1) * (1 - t)) ^ 2 + (t * (2 - 3 * t)) ^ 2) ≤
          9 * s ^ 2 * (4 * t ^ 2 * (1 - t) ^ 2) :=
        mul_le_mul_of_nonneg_left hD (by positivity)
      have hBnd : (m0 * ((3 * t - 1) * (1 - t)) + m1 * (t * (2 - 3 * t))) ^ 2 ≤
          (6 * s * t * (1 - t)) ^ 2 := by
        have hEq : (6 * s * t * (1 - t)) ^ 2 = 9 * s ^ 2 * (4 * t ^ 2 * (1 - t) ^ 2) := by
          ring
        rw [hEq]
        exact le_trans hCS (le_trans h92 h93)
      have hsum0 : 0 ≤ m0 * ((3 * t - 1) * (1 - t)) + m1 * (t * (2 - 3 * t)) :=
        add_nonneg (mul_nonneg h0 hX) (mul_nonneg h1 hY)
      have h6st : 0 ≤ 6 * s * t * (1 - t) := by
        have := mul_nonneg (mul_nonneg (mul_nonneg (by norm_num : (0:ℝ) ≤ 6) hs) ht0) ht1m
        linarith [this]
      have hle : m0 * ((3 * t - 1) * (1 - t)) + m1 * (t * (2 - 3 * t)) ≤
          6 * s * t * (1 - t) := le_of_sq_le_sq hBnd h6st
      linarith [hle]

theorem phat_nonneg (s m0 m1 t1 t2 : ℝ) (hs : 0 ≤ s) (h0 : 0 ≤ m0) (h1 : 0 ≤ m1)
    (hsq : m0 ^ 2 + m1 ^ 2 ≤ 9 * s ^ 2) (h01 : 0 ≤ t1) (h12 : t1 ≤ t2) (h21 : t2 ≤ 1) :
    0 ≤ (m0 + m1 - 2 * s) * (t1 ^ 2 + t1 * t2 + t2 ^ 2)
      + (3 * s - 2 * m0 - m1) * (t1 + t2) + m0 := by
  rcases le_or_lt (m0 + m1) (2 * s) with hc | hc
  · have hphi1 := phi_nonneg s m0 m1 t1 hs h0 h1 hsq h01 (by linarith)
    have hphi2 := phi_nonneg s m0 m1 t2 hs h0 h1 hsq (by linarith) h21
    nlinarith [mul_nonneg (by linarith : (0:ℝ) ≤ 2 * s - m0 - m1) (sq_nonneg (t2 - t1))]
  · have hmid := phi_nonneg s m0 m1 ((t1 + t2) / 2) hs h0 h1 hsq (by linarith) (by linarith)
    nlinarith [mul_nonneg (by linarith : (0:ℝ) ≤ m0 + m1 - 2 * s) (sq_nonneg (t2 - t1))]

theorem hermite_mono {y0 y1 dx M0 M1 t1 t2 : ℝ}
    (hdx : 0 < dx) (hdy : y0 ≤ y1) (h0 : 0 ≤ M0) (h1 : 0 ≤ M1)
    (hsq : (dx * M0) ^ 2 + (dx * M1) ^ 2 ≤ 9 * (y1 - y0) ^ 2)
    (h01 : 0 ≤ t1) (h12 : t1 ≤ t2) (h21 : t2 ≤ 1) :
    hermite t1 y0 y1 dx M0 M1 ≤ hermite t2 y0 y1 dx M0 M1 := by
  have hP := phat_nonneg (y1 - y0) (dx * M0) (dx * M1) t1 t2 (by linarith)
    (mul_nonneg hdx.le h0) (mul_nonneg hdx.le h1) hsq h01 h12 h21
  unfold hermite
  nlinarith [mul_nonneg (by linarith : (0:ℝ) ≤ t2 - t1) hP]

theorem hermite_ge {y0 y1 dx M0 M1 t : ℝ}
    (hdx : 0 < dx) (hdy : y0 ≤ y1) (h0 : 0 ≤ M0) (h1 : 0 ≤ M1)
    (hsq : (dx * M0) ^ 2 + (dx * M1) ^ 2 ≤ 9 * (y1 - y0) ^ 2)
    (ht0 : 0 ≤ t) (ht1 : t ≤ 1) :
    y0 ≤ hermite t y0 y1 dx M0 M1 := by
  have := hermite_mono hdx hdy h0 h1 hsq (le_refl (0:ℝ)) ht0 ht1
  rwa [hermite_zero] at this

theorem hermite_le {y0 y1 dx M0 M1 t : ℝ}
    (hdx : 0 < dx) (hdy : y0 ≤ y1) (h0 : 0 ≤ M0) (h1 : 0 ≤ M1)
    (hsq : (dx * M0) ^ 2 + (dx * M1) ^ 2 ≤ 9 * (y1 - y0) ^ 2)
    (ht0 : 0 ≤ t) (ht1 : t ≤ 1) :
    hermite t y0 y1 dx M0 M1 ≤ y1 := by
  have := hermite_mono hdx hdy h0 h1 hsq ht0 ht1 (le_refl (1:ℝ))
  rwa [hermite_one] at this

theorem limitTangents_spec {m0 m1 slope : ℚ} (h0 : 0 ≤ m0) (h1 : 0 ≤ m1) (hs : 0 ≤ slope) :
    0 ≤ (limitTangents m0 m1 slope).1 ∧ 0 ≤ (limitTangents m0 m1 slope).2 ∧
      (limitTangents m0 m1 slope).1 ^ 2 + (limitTangents m0 m1 slope).2 ^ 2 ≤
        9 * ((slope : ℚ) : ℝ) ^ 2 := by
  unfold limitTangents
  by_cases hz : slope = 0
  · rw [if_pos hz]
    subst hz
    norm_num
  · rw [if_neg hz]
    dsimp only
    have hα : 0 ≤ m0 / slope := div_nonneg h0 hs
    have hβ : 0 ≤ m1 / slope := div_nonneg h1 hs
    by_cases h9 : 9 < (m0 / slope) ^ 2 + (m1 / slope) ^ 2
    · rw [if_pos h9]
      have hL : ((slope : ℚ) : ℝ) ≠ 0 := by exact_mod_cast hz
      have hL0 : (0 : ℝ) ≤ ((slope : ℚ) : ℝ) := by exact_mod_cast hs
      have hcastS : (((m0 / slope) ^ 2 + (m1 / slope) ^ 2 : ℚ) : ℝ) =
          ((m0 / slope : ℚ) : ℝ) ^ 2 + ((m1 / slope : ℚ) : ℝ) ^ 2 := by
        push_cast
        ring
      have hSpos : (0 : ℝ) < (((m0 / slope) ^ 2 + (m1 / slope) ^ 2 : ℚ) : ℝ) := by
        exact_mod_cast lt_trans (by norm_num : (0:ℚ) < 9) h9
      have hsqrt : 0 < Real.sqrt (((m0 / slope) ^ 2 + (m1 / slope) ^ 2 : ℚ) : ℝ) :=
        Real.sqrt_pos.2 hSpos
      have hSS : (Real.sqrt (((m0 / slope) ^ 2 + (m1 / slope) ^ 2 : ℚ) : ℝ)) ^ 2 =
          (((m0 / slope) ^ 2 + (m1 / slope) ^ 2 : ℚ) : ℝ) := Real.sq_sqrt hSpos.le
      have hαR : (0 : ℝ) ≤ ((m0 / slope : ℚ) : ℝ) := by exact_mod_cast hα
      have hβR : (0 : ℝ) ≤ ((m1 / slope : ℚ) : ℝ) := by exact_mod_cast hβ
      refine ⟨?_, ?_, ?_⟩
      · exact mul_nonneg (mul_nonneg (div_nonneg (by norm_num) hsqrt.le) hαR) hL0
      · exact mul_nonneg (mul_nonneg (div_nonneg (by norm_num) hsqrt.le) hβR) hL0
      · have hkey : (3 / Real.sqrt (((m0 / slope) ^ 2 + (m1 / slope) ^ 2 : ℚ) : ℝ) *
            ((m0 / slope : ℚ) : ℝ) * ((slope : ℚ) : ℝ)) ^ 2 +
            (3 / Real.sqrt (((m0 / slope) ^ 2 + (m1 / slope) ^ 2 : ℚ) : ℝ) *
            ((m1 / slope : ℚ) : ℝ) * ((slope : ℚ) : ℝ)) ^ 2 =
            9 * ((slope : ℚ) : ℝ) ^ 2 := by
          have hRne : Real.sqrt (((m0 / slope) ^ 2 + (m1 / slope) ^ 2 : ℚ) : ℝ) ≠ 0 :=
            ne_of_gt hsqrt
          have hLpos : (0 : ℝ) < ((slope : ℚ) : ℝ) := lt_of_le_of_ne hL0 (Ne.symm hL)
          have hconv : (((m0 / slope) ^ 2 + (m1 / slope) ^ 2 : ℚ) : ℝ) *
              ((slope : ℚ) : ℝ) ^ 2 = ((m0 : ℚ) : ℝ) ^ 2 + ((m1 : ℚ) : ℝ) ^ 2 := by
            push_cast
            field_simp
          have hmm : (0 : ℝ) < ((m0 : ℚ) : ℝ) ^ 2 + ((m1 : ℚ) : ℝ) ^ 2 := by
            rw [← hconv]
            exact mul_pos hSpos (pow_pos hLpos 2)
          field_simp
          rw [mul_pow (Real.sqrt (((m0 : ℚ) : ℝ) ^ 2 + ((m1 : ℚ) : ℝ) ^ 2))
            ((slope : ℚ) : ℝ) 2, Real.sq_sqrt (le_of_lt hmm)]
          ring
        rw [hkey]
    · rw [if_neg h9]
      rw [if_neg (not_lt.2 hα), if_neg (not_lt.2 hβ)]
      dsimp only
      refine ⟨by exact_mod_cast h0, by exact_mod_cast h1, ?_⟩
      have h9' : (m0 / slope) ^ 2 + (m1 / slope) ^ 2 ≤ 9 := not_lt.1 h9
      have hQ : m0 ^ 2 + m1 ^ 2 ≤ 9 * slope ^ 2 := by
        have hmul := mul_le_mul_of_nonneg_right h9' (sq_nonneg slope)
        have hid : ((m0 / slope) ^ 2 + (m1 / slope) ^ 2) * slope ^ 2 = m0 ^ 2 + m1 ^ 2 := by
          field_simp
        linarith [hmul, hid.le, hid.symm.le]
      exact_mod_cast hQ

theorem monoM0_nonneg {s : List CurvePoint}
    (hstrict : List.Pairwise (fun a b : CurvePoint => a.x < b.x) s)
    (hm : MonotoneData s) {i : ℕ} (hi : i + 1 < s.length) :
    0 ≤ monoM0 s i ((nth s (i + 1)).x - (nth s i).x) ((nth s (i + 1)).y - (nth s i).y) := by
  unfold monoM0
  have hdx : 0 < (nth s (i + 1)).x - (nth s i).x := by
    have := nth_lt_nth hstrict (Nat.lt_succ_self i) hi
    linarith
  have hdy : 0 ≤ (nth s (i + 1)).y - (nth s i).y := by
    have := nth_y_mono hstrict hm (Nat.le_succ i) hi
    linarith
  by_cases hi0 : i = 0
  · rw [if_pos hi0]
    exact div_nonneg hdy hdx.le
  · rw [if_neg hi0]
    dsimp only
    have hprev : 0 < (nth s i).x - (nth s (i - 1)).x := by
      have := nth_lt_nth hstrict (show i - 1 < i by omega) (by omega)
      linarith
    rw [if_neg (by intro hcon; rw [hcon] at hprev; exact lt_irrefl 0 hprev)]
    have hprevdy : 0 ≤ (nth s i).y - (nth s (i - 1)).y := by
      have := nth_y_mono hstrict hm (show i - 1 ≤ i by omega) (by omega)
      linarith
    have hq1 := div_nonneg hdy hdx.le
    have hq2 := div_nonneg hprevdy hprev.le
    linarith

theorem monoM1_nonneg {s : List CurvePoint}
    (hstrict : List.Pairwise (fun a b : CurvePoint => a.x < b.x) s)
    (hm : MonotoneData s) {i : ℕ} (hi : i + 1 < s.length) :
    0 ≤ monoM1 s i s.length ((nth s (i + 1)).x - (nth s i).x)
      ((nth s (i + 1)).y - (nth s i).y) := by
  unfold monoM1
  have hdx : 0 < (nth s (i + 1)).x - (nth s i).x := by
    have := nth_lt_nth hstrict (Nat.lt_succ_self i) hi
    linarith
  have hdy : 0 ≤ (nth s (i + 1)).y - (nth s i).y := by
    have := nth_y_mono hstrict hm (Nat.le_succ i) hi
    linarith
  by_cases hi2 : i = s.length - 2
  · rw [if_pos hi2]
    exact div_nonneg hdy hdx.le
  · rw [if_neg hi2]
    dsimp only
    have hii : i + 2 < s.length := by omega
    have hnext : 0 < (nth s (i + 2)).x - (nth s (i + 1)).x := by
      have := nth_lt_nth hstrict (Nat.lt_succ_self (i + 1)) hii
      linarith
    rw [if_neg (by intro hcon; rw [hcon] at hnext; exact lt_irrefl 0 hnext)]
    have hnextdy : 0 ≤ (nth s (i + 2)).y - (nth s (i + 1)).y := by
      have := nth_y_mono hstrict hm (Nat.le_succ (i + 1)) hii
      linarith
    have hq1 := div_nonneg hdy hdx.le
    have hq2 := div_nonneg hnextdy hnext.le
    linarith

theorem roundClampR_mono {a b : ℝ} (h : a ≤ b) :
    ((clampI (jsRoundR a) 0 255 : ℤ) : ℝ) ≤ ((clampI (jsRoundR b) 0 255 : ℤ) : ℝ) := by
  have h1 : jsRoundR a ≤ jsRoundR b := by
    unfold jsRoundR
    exact Int.floor_mono (by linarith)
  have h2 : clampI (jsRoundR a) 0 255 ≤ clampI (jsRoundR b) 0 255 := by
    unfold clampI
    omega
  exact_mod_cast h2

theorem mono_eq_empty {pts : List CurvePoint} {x : ℚ} (hn : (sortPoints pts).length = 0) :
    monotoneCubicInterpolation pts x = (x : ℝ) := by
  unfold monotoneCubicInterpolation
  rw [if_pos hn]

theorem monoSegEval_eq {s : List CurvePoint} {n i : ℕ} {x : ℚ}
    (hdx : ¬ (nth s (i + 1)).x - (nth s i).x = 0) :
    monoSegEval s n i x =
      ((clampI (jsRoundR (segHermite s n i x)) 0 255 : ℤ) : ℝ) := by
  unfold monoSegEval segHermite
  rw [if_neg hdx]

theorem segTangent_bundle {s : List CurvePoint}
    (hstrict : List.Pairwise (fun a b : CurvePoint => a.x < b.x) s)
    (hm : MonotoneData s) {i : ℕ} (hi : i + 1 < s.length) :
    0 < (((nth s (i + 1)).x - (nth s i).x : ℚ) : ℝ) ∧
    ((nth s i).y : ℝ) ≤ ((nth s (i + 1)).y : ℝ) ∧
    0 ≤ (limitTangents (monoM0 s i ((nth s (i + 1)).x - (nth s i).x) ((nth s (i + 1)).y - (nth s i).y)) (monoM1 s i s.length ((nth s (i + 1)).x - (nth s i).x) ((nth s (i + 1)).y - (nth s i).y)) (((nth s (i + 1)).y - (nth s i).y) / ((nth s (i + 1)).x - (nth s i).x))).1 ∧ 0 ≤ (limitTangents (monoM0 s i ((nth s (i + 1)).x - (nth s i).x) ((nth s (i + 1)).y - (nth s i).y)) (monoM1 s i s.length ((nth s (i + 1)).x - (nth s i).x) ((nth s (i + 1)).y - (nth s i).y)) (((nth s (i + 1)).y - (nth s i).y) / ((nth s (i + 1)).x - (nth s i).x))).2 ∧
    ((((nth s (i + 1)).x - (nth s i).x : ℚ) : ℝ) * (limitTangents (monoM0 s i ((nth s (i + 1)).x - (nth s i).x) ((nth s (i + 1)).y - (nth s i).y)) (monoM1 s i s.length ((nth s (i + 1)).x - (nth s i).x) ((nth s (i + 1)).y - (nth s i).y)) (((nth s (i + 1)).y - (nth s i).y) / ((nth s (i + 1)).x - (nth s i).x))).1) ^ 2 + ((((nth s (i + 1)).x - (nth s i).x : ℚ) : ℝ) * (limitTangents (monoM0 s i ((nth s (i + 1)).x - (nth s i).x) ((nth s (i + 1)).y - (nth s i).y)) (monoM1 s i s.length ((nth s (i + 1)).x - (nth s i).x) ((nth s (i + 1)).y - (nth s i).y)) (((nth s (i + 1)).y - (nth s i).y) / ((nth s (i + 1)).x - (nth s i).x))).2) ^ 2 ≤
      9 * (((nth s (i + 1)).y : ℝ) - ((nth s i).y : ℝ)) ^ 2 := by
  have hdxq : 0 < ((nth s (i + 1)).x - (nth s i).x) := by
    have := nth_lt_nth hstrict (Nat.lt_succ_self i) hi
    linarith
  have hdyq : 0 ≤ ((nth s (i + 1)).y - (nth s i).y) := by
    have := nth_y_mono hstrict hm (Nat.le_succ i) hi
    linarith
  have hslq : 0 ≤ ((nth s (i + 1)).y - (nth s i).y) / ((nth s (i + 1)).x - (nth s i).x) := div_nonneg hdyq hdxq.le
  have hspec := limitTangents_spec (monoM0_nonneg hstrict hm hi) (monoM1_nonneg hstrict hm hi) hslq
  have hdxR : 0 < (((nth s (i + 1)).x - (nth s i).x : ℚ) : ℝ) := by exact_mod_cast hdxq
  refine ⟨hdxR, ?_, hspec.1, hspec.2.1, ?_⟩
  · have := nth_y_mono hstrict hm (Nat.le_succ i) hi
    exact_mod_cast this
  · have hsqR := hspec.2.2
    have hmul := mul_le_mul_of_nonneg_left hsqR (le_of_lt (pow_pos hdxR 2))
    have hslcast : ((((nth s (i + 1)).y - (nth s i).y) / ((nth s (i + 1)).x - (nth s i).x) : ℚ) : ℝ) =
        (((nth s (i + 1)).y - (nth s i).y : ℚ) : ℝ) / (((nth s (i + 1)).x - (nth s i).x : ℚ) : ℝ) := by push_cast; ring
    have hid : (((nth s (i + 1)).x - (nth s i).x : ℚ) : ℝ) ^ 2 * (9 * ((((nth s (i + 1)).y - (nth s i).y) / ((nth s (i + 1)).x - (nth s i).x) : ℚ) : ℝ) ^ 2) =
        9 * ((((nth s (i + 1)).y - (nth s i).y : ℚ) : ℝ)) ^ 2 := by
      rw [hslcast]
      have hne : ((nth s (i + 1)).x : ℝ) - ((nth s i).x : ℝ) ≠ 0 := by
        have h := hdxR
        push_cast at h
        linarith
      field_simp
    have hdyRcast : (((nth s (i + 1)).y - (nth s i).y : ℚ) : ℝ) = ((nth s (i + 1)).y : ℝ) - ((nth s i).y : ℝ) := by
      push_cast
      ring
    calc ((((nth s (i + 1)).x - (nth s i).x : ℚ) : ℝ) * (limitTangents (monoM0 s i ((nth s (i + 1)).x - (nth s i).x) ((nth s (i + 1)).y - (nth s i).y)) (monoM1 s i s.length ((nth s (i + 1)).x - (nth s i).x) ((nth s (i + 1)).y - (nth s i).y)) (((nth s (i + 1)).y - (nth s i).y) / ((nth s (i + 1)).x - (nth s i).x))).1) ^ 2 + ((((nth s (i + 1)).x - (nth s i).x : ℚ) : ℝ) * (limitTangents (monoM0 s i ((nth s (i + 1)).x - (nth s i).x) ((nth s (i + 1)).y - (nth s i).y)) (monoM1 s i s.length ((nth s (i + 1)).x - (nth s i).x) ((nth s (i + 1)).y - (nth s i).y)) (((nth s (i + 1)).y - (nth s i).y) / ((nth s (i + 1)).x - (nth s i).x))).2) ^ 2
        = (((nth s (i + 1)).x - (nth s i).x : ℚ) : ℝ) ^ 2 * ((limitTangents (monoM0 s i ((nth s (i + 1)).x - (nth s i).x) ((nth s (i + 1)).y - (nth s i).y)) (monoM1 s i s.length ((nth s (i + 1)).x - (nth s i).x) ((nth s (i + 1)).y - (nth s i).y)) (((nth s (i + 1)).y - (nth s i).y) / ((nth s (i + 1)).x - (nth s i).x))).1 ^ 2 + (limitTangents (monoM0 s i ((nth s (i + 1)).x - (nth s i).x) ((nth s (i + 1)).y - (nth s i).y)) (monoM1 s i s.length ((nth s (i + 1)).x - (nth s i).x) ((nth s (i + 1)).y - (nth s i).y)) (((nth s (i + 1)).y - (nth s i).y) / ((nth s (i + 1)).x - (nth s i).x))).2 ^ 2) := by ring
      _ ≤ (((nth s (i + 1)).x - (nth s i).x : ℚ) : ℝ) ^ 2 * (9 * ((((nth s (i + 1)).y - (nth s i).y) / ((nth s (i + 1)).x - (nth s i).x) : ℚ) : ℝ) ^ 2) := hmul
      _ = 9 * ((((nth s (i + 1)).y - (nth s i).y : ℚ) : ℝ)) ^ 2 := hid
      _ = 9 * (((nth s (i + 1)).y : ℝ) - ((nth s i).y : ℝ)) ^ 2 := by rw [hdyRcast]

theorem segHermite_mono {s : List CurvePoint}
    (hstrict : List.Pairwise (fun a b : CurvePoint => a.x < b.x) s)
    (hm : MonotoneData s) {i : ℕ} (hi : i + 1 < s.length) {w w' : ℚ}
    (hw : (nth s i).x < w) (hww : w ≤ w') (hw' : w' ≤ (nth s (i + 1)).x) :
    segHermite s s.length i w ≤ segHermite s s.length i w' := by
  obtain ⟨hdxR, hdyR, hM1, hM2, hsq⟩ := segTangent_bundle hstrict hm hi
  have hdxq : (0 : ℚ) < (nth s (i + 1)).x - (nth s i).x := by exact_mod_cast hdxR
  unfold segHermite
  apply hermite_mono hdxR hdyR hM1 hM2 hsq
  · have h : (0 : ℚ) ≤ (w - (nth s i).x) / ((nth s (i + 1)).x - (nth s i).x) :=
      div_nonneg (by linarith) hdxq.le
    exact_mod_cast h
  · have h : (w - (nth s i).x) / ((nth s (i + 1)).x - (nth s i).x) ≤
        (w' - (nth s i).x) / ((nth s (i + 1)).x - (nth s i).x) := by
      rw [div_le_div_iff₀ hdxq hdxq]
      exact mul_le_mul_of_nonneg_right (by linarith) hdxq.le
    exact_mod_cast h
  · have h : (w' - (nth s i).x) / ((nth s (i + 1)).x - (nth s i).x) ≤ 1 := by
      rw [div_le_one hdxq]
      linarith
    exact_mod_cast h

theorem segHermite_lb {s : List CurvePoint}
    (hstrict : List.Pairwise (fun a b : CurvePoint => a.x < b.x) s)
    (hm : MonotoneData s) {i : ℕ} (hi : i + 1 < s.length) {w : ℚ}
    (hw : (nth s i).x < w) (hw2 : w ≤ (nth s (i + 1)).x) :
    ((nth s i).y : ℝ) ≤ segHermite s s.length i w := by
  obtain ⟨hdxR, hdyR, hM1, hM2, hsq⟩ := segTangent_bundle hstrict hm hi
  have hdxq : (0 : ℚ) < (nth s (i + 1)).x - (nth s i).x := by exact_mod_cast hdxR
  unfold segHermite
  apply hermite_ge hdxR hdyR hM1 hM2 hsq
  · have h : (0 : ℚ) ≤ (w - (nth s i).x) / ((nth s (i + 1)).x - (nth s i).x) :=
      div_nonneg (by linarith) hdxq.le
    exact_mod_cast h
  · have h : (w - (nth s i).x) / ((nth s (i + 1)).x - (nth s i).x) ≤ 1 := by
      rw [div_le_one hdxq]
      linarith
    exact_mod_cast h

theorem segHermite_ub {s : List CurvePoint}
    (hstrict : List.Pairwise (fun a b : CurvePoint => a.x < b.x) s)
    (hm : MonotoneData s) {i : ℕ} (hi : i + 1 < s.length) {w : ℚ}
    (hw : (nth s i).x < w) (hw2 : w ≤ (nth s (i + 1)).x) :
    segHermite s s.length i w ≤ ((nth s (i + 1)).y : ℝ) := by
  obtain ⟨hdxR, hdyR, hM1, hM2, hsq⟩ := segTangent_bundle hstrict hm hi
  have hdxq : (0 : ℚ) < (nth s (i + 1)).x - (nth s i).x := by exact_mod_cast hdxR
  unfold segHermite
  apply hermite_le hdxR hdyR hM1 hM2 hsq
  · have h : (0 : ℚ) ≤ (w - (nth s i).x) / ((nth s (i + 1)).x - (nth s i).x) :=
      div_nonneg (by linarith) hdxq.le
    exact_mod_cast h
  · have h : (w - (nth s i).x) / ((nth s (i + 1)).x - (nth s i).x) ≤ 1 := by
      rw [div_le_one hdxq]
      linarith
    exact_mod_cast h

/-- C5: for every point set whose y-values are non-decreasing in x, with
pairwise distinct x (the data model's set-keyed-by-x semantics) and integer
coordinates in [0, 255], the monotone cubic interpolator
`monotoneCubicInterpolation` is a non-decreasing function of the query x
over [0, 255]. -/
theorem C5_monotone_preserves_monotonicity (pts : List CurvePoint)
    (hd : DistinctX pts) (hv : ∀ p ∈ pts, ValidPt p) (hm : MonotoneData pts)
    (u v : ℚ) (hu0 : 0 ≤ u) (huv : u ≤ v) (hv255 : v ≤ 255) :
    monotoneCubicInterpolation pts u ≤ monotoneCubicInterpolation pts v := by
  have hstrict := strictX_of_sorted_distinct (sortPoints_sorted pts) (distinctX_sortPoints hd)
  have hm' := monotoneData_sortPoints hm
  have hv' : ∀ p ∈ sortPoints pts, ValidPt p := fun p hp => hv p (mem_sortPoints.1 hp)
  by_cases hn0 : (sortPoints pts).length = 0
  · rw [mono_eq_empty hn0, mono_eq_empty hn0]
    exact_mod_cast huv
  have hbox : ∀ j, j < (sortPoints pts).length →
      ((nth (sortPoints pts) j).y : ℝ) =
        ((clampI (jsRoundR ((nth (sortPoints pts) j).y : ℝ)) 0 255 : ℤ) : ℝ) := by
    intro j hj
    obtain ⟨_, hden, _, _, hy0, hy1⟩ := hv' _ (nth_mem hj)
    obtain ⟨m, hmeq⟩ := exists_int_of_den_one hden
    rw [hmeq] at hy0 hy1 ⊢
    have h0 : (0 : ℤ) ≤ m := by exact_mod_cast hy0
    have h1 : m ≤ 255 := by exact_mod_cast hy1
    have hc : (((m : ℚ)) : ℝ) = ((m : ℤ) : ℝ) := by push_cast; ring
    rw [hc]
    exact (roundClampR_intCast h0 h1).symm
  have hychain : ∀ j k, j ≤ k → k < (sortPoints pts).length →
      ((nth (sortPoints pts) j).y : ℝ) ≤ ((nth (sortPoints pts) k).y : ℝ) := by
    intro j k hjk hk
    exact_mod_cast nth_y_mono hstrict hm' hjk hk
  have hintf : ∀ w : ℚ, ¬ w ≤ (nth (sortPoints pts) 0).x →
      ¬ (nth (sortPoints pts) ((sortPoints pts).length - 1)).x ≤ w →
      monotoneCubicInterpolation pts w =
        ((clampI (jsRoundR (segHermite (sortPoints pts) (sortPoints pts).length
          (findSegIdx (sortPoints pts) w) w)) 0 255 : ℤ) : ℝ) ∧
      findSegIdx (sortPoints pts) w + 1 < (sortPoints pts).length ∧
      (nth (sortPoints pts) (findSegIdx (sortPoints pts) w)).x < w ∧
      w ≤ (nth (sortPoints pts) (findSegIdx (sortPoints pts) w + 1)).x := by
    intro w hw1 hw2
    have hn2 : 2 ≤ (sortPoints pts).length := by
      by_contra hcon
      push_neg at hcon
      have h01 : (sortPoints pts).length - 1 = 0 := by omega
      rw [h01] at hw2
      exact hw2 (le_of_lt (lt_of_not_le hw1))
    have hlt := findSegIdx_pred_lt hn2 hw2
    have hlow := findSegIdx_lower hw1
    have hup := findSegIdx_upper hlt
    have hdxne : ¬ ((nth (sortPoints pts) (findSegIdx (sortPoints pts) w + 1)).x -
        (nth (sortPoints pts) (findSegIdx (sortPoints pts) w)).x = 0) := by
      have h := nth_lt_nth hstrict (Nat.lt_succ_self (findSegIdx (sortPoints pts) w)) (by omega)
      intro hcon
      linarith
    exact ⟨by rw [mono_eq_interior hn2 hw1 hw2, monoSegEval_eq hdxne], by omega, hlow, hup⟩
  by_cases hvle : v ≤ (nth (sortPoints pts) 0).x
  · have hule : u ≤ (nth (sortPoints pts) 0).x := le_trans huv hvle
    rw [mono_eq_left hn0 hule, mono_eq_left hn0 hvle]
  · by_cases hule : u ≤ (nth (sortPoints pts) 0).x
    · rw [mono_eq_left hn0 hule]
      by_cases hvge : (nth (sortPoints pts) ((sortPoints pts).length - 1)).x ≤ v
      · rw [mono_eq_right hn0 hvle hvge]
        exact hychain 0 ((sortPoints pts).length - 1) (Nat.zero_le _) (by omega)
      · obtain ⟨hveq, hvlen, hvlow, hvup⟩ := hintf v hvle hvge
        rw [hveq, hbox 0 (by omega)]
        apply roundClampR_mono
        have h1 := hychain 0 (findSegIdx (sortPoints pts) v) (Nat.zero_le _) (by omega)
        have h2 := segHermite_lb hstrict hm' hvlen hvlow hvup
        linarith
    · by_cases huge2 : (nth (sortPoints pts) ((sortPoints pts).length - 1)).x ≤ u
      · have hvge : (nth (sortPoints pts) ((sortPoints pts).length - 1)).x ≤ v :=
          le_trans huge2 huv
        rw [mono_eq_right hn0 hule huge2, mono_eq_right hn0 hvle hvge]
      · obtain ⟨hueq, hulen, hulow, huup⟩ := hintf u hule huge2
        by_cases hvge : (nth (sortPoints pts) ((sortPoints pts).length - 1)).x ≤ v
        · rw [hueq, mono_eq_right hn0 hvle hvge,
            hbox ((sortPoints pts).length - 1) (by omega)]
          apply roundClampR_mono
          have h2 := segHermite_ub hstrict hm' hulen hulow huup
          have h1 := hychain (findSegIdx (sortPoints pts) u + 1)
            ((sortPoints pts).length - 1) (by omega) (by omega)
          linarith
        · obtain ⟨hveq, hvlen, hvlow, hvup⟩ := hintf v hvle hvge
          rw [hueq, hveq]
          apply roundClampR_mono
          rcases Nat.eq_or_lt_of_le (findSegIdx_mono (sortPoints pts) huv) with heq | hlt2
          · rw [heq] at hulow ⊢
            exact segHermite_mono hstrict hm' hvlen hulow huv hvup
          · have h1 := segHermite_ub hstrict hm' hulen hulow huup
            have h2 := segHermite_lb hstrict hm' hvlen hvlow hvup
            have h3 := hychain (findSegIdx (sortPoints pts) u + 1)
              (findSegIdx (sortPoints pts) v) hlt2 (by omega)
            linarith

theorem C5_monotone_preserves_monotonicity_witness :
    monotoneCubicInterpolation getDefaultPoints 3 ≤
      monotoneCubicInterpolation getDefaultPoints 200 := by
  refine C5_monotone_preserves_monotonicity getDefaultPoints ?_ ?_ ?_ 3 200
    (by norm_num) (by norm_num) (by norm_num)
  · norm_num [DistinctX, getDefaultPoints]
  · intro p hp
    simp only [getDefaultPoints, List.mem_cons, List.not_mem_nil, or_false] at hp
    rcases hp with h | h <;> subst h <;>
      exact ⟨by norm_num, by norm_num, by norm_num, by norm_num, by norm_num, by norm_num⟩
  · intro p hp q hq hpq
    simp only [getDefaultPoints, List.mem_cons, List.not_mem_nil, or_false] at hp hq
    rcases hp with h | h <;> rcases hq with h2 | h2 <;> subst h <;> subst h2 <;>
      norm_num at hpq ⊢

end RGBCurve
